import Mathlib

/-!
Verification of the puzzle-generation engine of `vidoku` (src/generation.rs).

A grid is a 9×9 matrix of digits 0–9 (0 = empty), embedded as a list of rows.
The definitions below shallowly embed the Rust functions
`is_safe_placement`, `get_first_empty_index`, `solution_count`,
`fill_grid` / `generate_random_filled_grid` and `mask_grid`
(the recursive / looping ones with an explicit fuel parameter, and the
random source as an explicit stream of natural numbers).
-/

namespace Vidoku

abbrev Grid := List (List Nat)

/-- `grid[r][c]` for in-bounds indices (0 past the end, where Rust would panic). -/
def getCell (g : Grid) (r c : Nat) : Nat := (g.getD r []).getD c 0

/-- `grid[r][c] = v` for in-bounds indices (no-op past the end). -/
def setCell (g : Grid) (r c v : Nat) : Grid := g.set r ((g.getD r []).set c v)

/-- The `seen` presence array of `is_safe_placement`, as a predicate on indices:
walk the list; skip zeros; on a nonzero element `e`, fail if `seen (e-1)` is
already marked, otherwise mark it and continue. -/
def scanSeen : List Nat → (Nat → Bool) → Bool
  | [], _ => true
  | e :: rest, seen =>
    if e = 0 then scanSeen rest seen
    else if seen (e - 1) then false
    else scanSeen rest (fun j => if j = e - 1 then true else seen j)

/-- The elements of the row `row` of the grid, in order (`&grid[row]`). -/
def rowCells (g : Grid) (row : Nat) : List Nat := g.getD row []

/-- The elements of the column `col`, one per row, in order (`row[col]`). -/
def colCells (g : Grid) (col : Nat) : List Nat := g.map (fun r => r.getD col 0)

/-- The elements of the 3×3 box containing `(row, col)`, in the iteration
order of the Rust code (`r` outer, `c` inner). -/
def boxCells (g : Grid) (row col : Nat) : List Nat :=
  (List.range 3).flatMap (fun r =>
    (List.range 3).map (fun c => getCell g (3 * (row / 3) + r) (3 * (col / 3) + c)))

/-- The initial `seen` array: only `val - 1` marked. -/
def initSeen (val : Nat) : Nat → Bool := fun j => j = val - 1

/-- `is_safe_placement(grid, row, col, val)`: row check, then column check,
then box check, each a `scanSeen` starting from `initSeen val`. -/
def is_safe_placement (g : Grid) (row col val : Nat) : Bool :=
  scanSeen (rowCells g row) (initSeen val) &&
  scanSeen (colCells g col) (initSeen val) &&
  scanSeen (boxCells g row col) (initSeen val)

/-- `get_first_empty_index`: position of the first 0 in row-major order,
recovered from the flat index as `(idx / 9, idx % 9)`. -/
def get_first_empty_index (g : Grid) : Option (Nat × Nat) :=
  match g.flatten.findIdx? (fun v => v = 0) with
  | some idx => some (idx / 9, idx % 9)
  | none => none

/-- The digit loop of `solution_count`: sum, over the digits of the list that
are safe at `(r, c)`, of the recursive count on the grid with that digit
placed. -/
def sumDigits (rec : Grid → Nat) (r c : Nat) (g : Grid) : List Nat → Nat
  | [] => 0
  | d :: rest =>
    (if is_safe_placement g r c d then rec (setCell g r c d) else 0) +
      sumDigits rec r c g rest

/-- `solution_count`, with fuel (one unit per placed cell; the Rust recursion
terminates because each call fills the first empty cell). -/
def solution_countF : Nat → Grid → Nat
  | 0, _ => 0
  | fuel + 1, g =>
    match get_first_empty_index g with
    | none => 1
    | some (r, c) => sumDigits (solution_countF fuel) r c g [1, 2, 3, 4, 5, 6, 7, 8, 9]

/-- `solution_count(grid)`: 82 units of fuel suffice for any 9×9 grid
(at most 81 empty cells, plus the final full-grid base case). -/
def solution_count (g : Grid) : Nat := solution_countF 82 g

/-! ## Well-formedness and the semantic notion of a completion -/

/-- A well-formed grid: 9 rows of 9 entries, each entry a digit 0–9
(in the Rust code this shape is maintained by construction). -/
def wfG (g : Grid) : Prop :=
  g.length = 9 ∧ ∀ row ∈ g, row.length = 9 ∧ ∀ v ∈ row, v ≤ 9

/-- Every in-bounds cell holds a digit (no empty cell). -/
def fullG (g : Grid) : Prop := ∀ r < 9, ∀ c < 9, getCell g r c ≠ 0

/-- The nonzero entries of a house (row, column or box list) are pairwise
distinct. -/
def nodupNZ (l : List Nat) : Prop := (l.filter (fun v => v ≠ 0)).Nodup

/-- The Sudoku validity invariant: nonzero entries of every row, every
column and every box are pairwise distinct. -/
def validG (g : Grid) : Prop :=
  (∀ r < 9, nodupNZ (rowCells g r)) ∧ (∀ c < 9, nodupNZ (colCells g c)) ∧
    ∀ r < 9, ∀ c < 9, nodupNZ (boxCells g r c)

/-- `h` keeps every given (nonzero cell) of `g`. -/
def gridExtends (g h : Grid) : Prop :=
  ∀ r < 9, ∀ c < 9, getCell g r c ≠ 0 → getCell h r c = getCell g r c

/-- `h` is a completion of the partial grid `g`: a well-formed, fully
filled, valid grid agreeing with all givens of `g`. -/
def isCompletion (g h : Grid) : Prop := wfG h ∧ fullG h ∧ validG h ∧ gridExtends g h

/-- The number of distinct completions of `g`. -/
noncomputable def numSolutions (g : Grid) : Nat := Set.ncard {h | isCompletion g h}

/-- Number of in-bounds empty cells, counted through flat indices `0..80`. -/
def zerosG (g : Grid) : Nat :=
  ((Finset.range 81).filter (fun i => getCell g (i / 9) (i % 9) = 0)).card

instance : DecidablePred wfG := fun g => by unfold wfG; infer_instance

instance : DecidablePred fullG := fun g => by unfold fullG; infer_instance

instance : DecidablePred nodupNZ := fun l => by unfold nodupNZ; infer_instance

instance : Decidable (validG g) := by unfold validG nodupNZ; infer_instance

/-! ## Cell access lemmas -/

theorem length_setCell (g : Grid) (r c v : Nat) : (setCell g r c v).length = g.length :=
  List.length_set ..

theorem getD_set_self {α : Type} {l : List α} {i : Nat} (h : i < l.length) (a d : α) :
    (l.set i a).getD i d = a := by
  rw [List.getD_eq_getElem?_getD, List.getElem?_set_self h, Option.getD_some]

theorem getD_set_ne {α : Type} {l : List α} {i j : Nat} (h : i ≠ j) (a d : α) :
    (l.set i a).getD j d = l.getD j d := by
  rw [List.getD_eq_getElem?_getD, List.getElem?_set_ne h, List.getD_eq_getElem?_getD]

theorem getD_mem_of_lt {α : Type} {l : List α} {i : Nat} (h : i < l.length) (d : α) :
    l.getD i d ∈ l := by
  rw [List.getD_eq_getElem?_getD, List.getElem?_eq_getElem h, Option.getD_some]
  exact List.getElem_mem h

theorem wfG_setCell {g : Grid} (hg : wfG g) {v : Nat} (hv : v ≤ 9) (r c : Nat) :
    wfG (setCell g r c v) := by
  obtain ⟨hlen, hrow⟩ := hg
  by_cases hrl : r < g.length
  · refine ⟨(length_setCell ..).trans hlen, ?_⟩
    intro row hmem
    rcases List.mem_or_eq_of_mem_set hmem with h | h
    · exact hrow row h
    · subst h
      obtain ⟨hl, hv9⟩ := hrow _ (getD_mem_of_lt hrl [])
      refine ⟨(List.length_set ..).trans hl, ?_⟩
      intro x hx
      rcases List.mem_or_eq_of_mem_set hx with h | h
      · exact hv9 x h
      · exact h ▸ hv
  · unfold setCell
    rw [List.set_eq_of_length_le (by omega)]
    exact ⟨hlen, hrow⟩

theorem rowlen_of_wfG {g : Grid} (hg : wfG g) {r : Nat} (hr : r < 9) :
    (g.getD r []).length = 9 := by
  have h9 := hg.1
  exact (hg.2 _ (getD_mem_of_lt (by omega) [])).1

theorem getCell_le_9 {g : Grid} (hg : wfG g) (r c : Nat) : getCell g r c ≤ 9 := by
  unfold getCell
  by_cases hrl : r < g.length
  · by_cases hcl : c < (g.getD r []).length
    · exact (hg.2 _ (getD_mem_of_lt hrl [])).2 _ (getD_mem_of_lt hcl 0)
    · rw [List.getD_eq_getElem?_getD, List.getElem?_eq_none (by omega)]
      exact Nat.zero_le 9
  · rw [List.getD_eq_getElem?_getD (l := g), List.getElem?_eq_none (by omega)]
    exact Nat.zero_le 9

theorem getCell_setCell_same {g : Grid} (hg : wfG g) {r c : Nat} (hr : r < 9) (hc : c < 9)
    (v : Nat) : getCell (setCell g r c v) r c = v := by
  have h9 := hg.1
  have hrl : r < g.length := by omega
  have hcl : c < (g.getD r []).length := by rw [rowlen_of_wfG hg hr]; omega
  unfold getCell setCell
  rw [getD_set_self hrl, getD_set_self hcl]

theorem getCell_setCell_other (g : Grid) (r c v r' c' : Nat)
    (h : ¬(r' = r ∧ c' = c)) : getCell (setCell g r c v) r' c' = getCell g r' c' := by
  unfold getCell setCell
  by_cases hrr : r' = r
  · subst hrr
    have hcc : c' ≠ c := fun hc => h ⟨rfl, hc⟩
    by_cases hrl : r' < g.length
    · rw [getD_set_self hrl, getD_set_ne (Ne.symm hcc)]
    · rw [List.set_eq_of_length_le (by omega)]
  · rw [getD_set_ne (Ne.symm hrr)]

/-! ## Characterization of the safety check -/

theorem scanSeen_eq_true_iff (l : List Nat) : ∀ seen : Nat → Bool,
    scanSeen l seen = true ↔
      nodupNZ l ∧ ∀ e ∈ l, e ≠ 0 → seen (e - 1) = false := by
  induction l with
  | nil =>
    intro seen
    simp [scanSeen, nodupNZ]
  | cons e rest ih =>
    intro seen
    unfold scanSeen
    by_cases he : e = 0
    · subst he
      rw [if_pos rfl, ih]
      unfold nodupNZ
      simp
    · rw [if_neg he]
      by_cases hs : seen (e - 1) = true
      · rw [if_pos hs]
        constructor
        · intro hfalse
          exact absurd hfalse (by simp)
        · rintro ⟨-, hmem⟩
          have := hmem e (List.mem_cons_self e rest) he
          rw [this] at hs
          cases hs
      · rw [if_neg hs, ih]
        have hs' : seen (e - 1) = false := by
          cases h : seen (e - 1)
          · rfl
          · exact absurd h hs
        unfold nodupNZ
        have hfc : (e :: rest).filter (fun v => v ≠ 0) =
            e :: rest.filter (fun v => v ≠ 0) := by
          rw [List.filter_cons_of_pos (by simpa using he)]
        rw [hfc, List.nodup_cons]
        constructor
        · rintro ⟨hnd, hall⟩
          have hsplit : ∀ x ∈ rest, x ≠ 0 → x ≠ e ∧ seen (x - 1) = false := by
            intro x hx hxne
            have h := hall x hx hxne
            by_cases hxe : x - 1 = e - 1
            · rw [if_pos hxe] at h
              cases h
            · rw [if_neg hxe] at h
              exact ⟨fun hxeq => hxe (by rw [hxeq]), h⟩
          refine ⟨⟨?_, hnd⟩, ?_⟩
          · intro hmem
            rw [List.mem_filter] at hmem
            exact (hsplit e hmem.1 he).1 rfl
          · intro x hx hxne
            rcases List.mem_cons.mp hx with rfl | hxr
            · exact hs'
            · exact (hsplit x hxr hxne).2
        · rintro ⟨⟨hne, hnd⟩, hall⟩
          refine ⟨hnd, ?_⟩
          intro x hx hxne
          by_cases hxe : x - 1 = e - 1
          · have hxeq : x = e := by omega
            exact absurd (List.mem_filter.mpr ⟨hxeq ▸ hx, by simpa using he⟩) hne
          · rw [if_neg hxe]
            exact hall x (List.mem_cons_of_mem e hx) hxne

theorem initSeen_eq_false_iff {val e : Nat} (hv : 1 ≤ val) (he : e ≠ 0) :
    initSeen val (e - 1) = false ↔ e ≠ val := by
  unfold initSeen
  constructor
  · intro h hev
    subst hev
    simp at h
  · intro h
    simp only [decide_eq_false_iff_not]
    omega

theorem scanSeen_initSeen_iff (l : List Nat) {val : Nat} (hv : 1 ≤ val) :
    scanSeen l (initSeen val) = true ↔ nodupNZ l ∧ val ∉ l := by
  rw [scanSeen_eq_true_iff]
  refine and_congr_right fun _ => ?_
  constructor
  · intro hall hmem
    have := (initSeen_eq_false_iff hv (by omega)).mp (hall val hmem (by omega))
    exact this rfl
  · intro hnm x hx hxne
    exact (initSeen_eq_false_iff hv hxne).mpr fun hxv => hnm (hxv ▸ hx)

/-- What `is_safe_placement` decides: for a digit `val` in 1–9, it accepts
iff the row, the column and the box each have pairwise-distinct nonzero
entries and none of them contains `val`. -/
theorem is_safe_placement_iff (g : Grid) (row col : Nat) {val : Nat} (hv : 1 ≤ val) :
    is_safe_placement g row col val = true ↔
      (nodupNZ (rowCells g row) ∧ val ∉ rowCells g row) ∧
        (nodupNZ (colCells g col) ∧ val ∉ colCells g col) ∧
          nodupNZ (boxCells g row col) ∧ val ∉ boxCells g row col := by
  unfold is_safe_placement
  rw [Bool.and_eq_true, Bool.and_eq_true,
    scanSeen_initSeen_iff _ hv, scanSeen_initSeen_iff _ hv, scanSeen_initSeen_iff _ hv]
  tauto

/-! ## A generic backtracking counter, parametrized by the pivot choice

`countWith pick` is `solution_count` with the choice of the next cell to
branch on abstracted out; `solution_countF` is the instance
`pick = get_first_empty_index`. `solsWith` enumerates the grids the same
search produces, so that the count can be related to the set of
completions. -/

def countWith (pick : Grid → Option (Nat × Nat)) : Nat → Grid → Nat
  | 0, _ => 0
  | fuel + 1, g =>
    match pick g with
    | none => 1
    | some (r, c) => sumDigits (countWith pick fuel) r c g [1, 2, 3, 4, 5, 6, 7, 8, 9]

/-- The digit loop of the search, producing the list of found grids. -/
def appendDigits (rec : Grid → List Grid) (r c : Nat) (g : Grid) : List Nat → List Grid
  | [] => []
  | d :: rest =>
    (if is_safe_placement g r c d then rec (setCell g r c d) else []) ++
      appendDigits rec r c g rest

def solsWith (pick : Grid → Option (Nat × Nat)) : Nat → Grid → List Grid
  | 0, _ => []
  | fuel + 1, g =>
    match pick g with
    | none => [g]
    | some (r, c) => appendDigits (solsWith pick fuel) r c g [1, 2, 3, 4, 5, 6, 7, 8, 9]

theorem sumDigits_congr {rec rec' : Grid → Nat} (h : ∀ g', rec g' = rec' g')
    (r c : Nat) (g : Grid) (l : List Nat) :
    sumDigits rec r c g l = sumDigits rec' r c g l := by
  induction l with
  | nil => rfl
  | cons d rest ih =>
    unfold sumDigits
    rw [ih, h]

theorem solution_countF_eq_countWith (fuel : Nat) (g : Grid) :
    solution_countF fuel g = countWith get_first_empty_index fuel g := by
  induction fuel generalizing g with
  | zero => rfl
  | succ n ih =>
    unfold solution_countF countWith
    cases get_first_empty_index g with
    | none => rfl
    | some rc => exact sumDigits_congr ih rc.1 rc.2 g _

theorem sumDigits_eq_length {rec : Grid → Nat} {rec' : Grid → List Grid}
    (h : ∀ g', rec g' = (rec' g').length) (r c : Nat) (g : Grid) (l : List Nat) :
    sumDigits rec r c g l = (appendDigits rec' r c g l).length := by
  induction l with
  | nil => rfl
  | cons d rest ih =>
    unfold sumDigits appendDigits
    rw [List.length_append, ih]
    by_cases hs : is_safe_placement g r c d = true
    · rw [if_pos hs, if_pos hs, h]
    · rw [if_neg hs, if_neg hs]
      rfl

theorem countWith_eq_length (pick : Grid → Option (Nat × Nat)) (fuel : Nat) (g : Grid) :
    countWith pick fuel g = (solsWith pick fuel g).length := by
  induction fuel generalizing g with
  | zero => rfl
  | succ n ih =>
    unfold countWith solsWith
    cases pick g with
    | none => rfl
    | some rc => exact sumDigits_eq_length ih rc.1 rc.2 g _

theorem mem_appendDigits {rec : Grid → List Grid} {r c : Nat} {g : Grid} {l : List Nat}
    {h : Grid} : h ∈ appendDigits rec r c g l ↔
      ∃ d ∈ l, is_safe_placement g r c d = true ∧ h ∈ rec (setCell g r c d) := by
  induction l with
  | nil => simp [appendDigits]
  | cons d rest ih =>
    unfold appendDigits
    rw [List.mem_append, ih]
    by_cases hs : is_safe_placement g r c d = true
    · rw [if_pos hs]
      constructor
      · rintro (hm | ⟨d', hd', hs', hm⟩)
        · exact ⟨d, List.mem_cons_self d rest, hs, hm⟩
        · exact ⟨d', List.mem_cons_of_mem d hd', hs', hm⟩
      · rintro ⟨d', hd', hs', hm⟩
        rcases List.mem_cons.mp hd' with rfl | hd'
        · exact Or.inl hm
        · exact Or.inr ⟨d', hd', hs', hm⟩
    · rw [if_neg hs]
      constructor
      · rintro (hm | ⟨d', hd', hs', hm⟩)
        · exact absurd hm (List.not_mem_nil h)
        · exact ⟨d', List.mem_cons_of_mem d hd', hs', hm⟩
      · rintro ⟨d', hd', hs', hm⟩
        rcases List.mem_cons.mp hd' with rfl | hd2
        · exact absurd hs' hs
        · exact Or.inr ⟨d', hd2, hs', hm⟩

/-! ## House lists, pointwise -/

theorem length_rowCells {g : Grid} (hg : wfG g) {r : Nat} (hr : r < 9) :
    (rowCells g r).length = 9 := rowlen_of_wfG hg hr

theorem length_colCells {g : Grid} (hg : wfG g) (c : Nat) :
    (colCells g c).length = 9 := by
  unfold colCells
  rw [List.length_map, hg.1]

theorem length_boxCells (g : Grid) (r c : Nat) : (boxCells g r c).length = 9 := rfl

theorem rowCells_getD (g : Grid) (r c : Nat) :
    (rowCells g r).getD c 0 = getCell g r c := rfl

theorem colCells_getD (g : Grid) (r c : Nat) :
    (colCells g c).getD r 0 = getCell g r c := by
  unfold colCells getCell
  by_cases hrl : r < g.length
  · rw [List.getD_eq_getElem?_getD, List.getElem?_map, List.getElem?_eq_getElem hrl,
      Option.map_some', Option.getD_some]
    congr 1
    rw [List.getD_eq_getElem?_getD, List.getElem?_eq_getElem hrl, Option.getD_some]
  · rw [List.getD_eq_getElem?_getD, List.getElem?_map,
      List.getElem?_eq_none (by simpa using Nat.le_of_not_lt hrl), Option.map_none',
      List.getD_eq_getElem?_getD (l := g),
      List.getElem?_eq_none (by simpa using Nat.le_of_not_lt hrl)]
    rfl

theorem boxCells_getD (g : Grid) (r c : Nat) {j : Nat} (hj : j < 9) :
    (boxCells g r c).getD j 0 = getCell g (3 * (r / 3) + j / 3) (3 * (c / 3) + j % 3) := by
  interval_cases j <;> rfl

/-! ## Index-wise characterization of house distinctness -/

theorem getD_eq_getElem {α : Type} {l : List α} {i : Nat} (h : i < l.length) (d : α) :
    l.getD i d = l.get ⟨i, h⟩ := by
  rw [List.getD_eq_getElem?_getD, List.getElem?_eq_getElem h, Option.getD_some]
  rfl

theorem nodupNZ_iff_getD (l : List Nat) :
    nodupNZ l ↔ ∀ i j, i < l.length → j < l.length → i < j →
      l.getD i 0 ≠ 0 → l.getD i 0 ≠ l.getD j 0 := by
  unfold nodupNZ
  constructor
  · intro hnd i j hi hj hij hne heq
    have hdup : l.Duplicate (l.getD i 0) := by
      rw [List.duplicate_iff_exists_distinct_get]
      exact ⟨⟨i, hi⟩, ⟨j, hj⟩, hij, (getD_eq_getElem hi 0), heq.symm ▸ (getD_eq_getElem hj 0)⟩
    have h2 : 2 ≤ l.count (l.getD i 0) := List.duplicate_iff_two_le_count.mp hdup
    have hcf : (l.filter (fun v => v ≠ 0)).count (l.getD i 0) = l.count (l.getD i 0) :=
      List.count_filter (by simpa using hne)
    have := List.nodup_iff_count_le_one.mp hnd (l.getD i 0)
    omega
  · intro hp
    rw [List.nodup_iff_count_le_one]
    intro x
    by_contra hc
    push_neg at hc
    have hx0 : x ≠ 0 := by
      have hpos : x ∈ l.filter (fun v => v ≠ 0) :=
        List.count_pos_iff.mp (by omega)
      simpa using (List.mem_filter.mp hpos).2
    have hcf : (l.filter (fun v => v ≠ 0)).count x = l.count x :=
      List.count_filter (by simpa using hx0)
    have hdup : l.Duplicate x := List.duplicate_iff_two_le_count.mpr (by omega)
    rw [List.duplicate_iff_exists_distinct_get] at hdup
    obtain ⟨n, m, hnm, hxn, hxm⟩ := hdup
    have h1 : l.getD n.1 0 = x := by
      rw [getD_eq_getElem n.2]
      exact hxn.symm
    have h2 : l.getD m.1 0 = x := by
      rw [getD_eq_getElem m.2]
      exact hxm.symm
    exact hp n m n.2 m.2 hnm (by (rw [h1]; exact hx0)) (by rw [h1, h2])

theorem nodupNZ_of_pointwise {l l' : List Nat} (hlen : l'.length = l.length)
    (hpt : ∀ j, j < l.length → l'.getD j 0 = l.getD j 0) (h : nodupNZ l) : nodupNZ l' := by
  rw [nodupNZ_iff_getD] at h ⊢
  intro i j hi hj hij hne
  rw [hlen] at hi hj
  rw [hpt i hi] at hne
  rw [hpt i hi, hpt j hj]
  exact h i j hi hj hij hne

theorem nodupNZ_update {l l' : List Nat} {k d : Nat} (hlen : l'.length = l.length)
    (hd : d ∉ l)
    (hpt : ∀ j, j < l.length → l'.getD j 0 = if j = k then d else l.getD j 0)
    (h : nodupNZ l) : nodupNZ l' := by
  rw [nodupNZ_iff_getD] at h ⊢
  intro i j hi hj hij hne heq
  rw [hlen] at hi hj
  rw [hpt i hi] at hne heq
  rw [hpt j hj] at heq
  by_cases hik : i = k
  · rw [if_pos hik] at hne heq
    by_cases hjk : j = k
    · omega
    · rw [if_neg hjk] at heq
      exact hd (heq ▸ getD_mem_of_lt hj 0)
  · rw [if_neg hik] at hne heq
    by_cases hjk : j = k
    · rw [if_pos hjk] at heq
      exact hd (heq ▸ getD_mem_of_lt hi 0)
    · rw [if_neg hjk] at heq
      exact h i j hi hj hij hne heq

/-! ## Validity is preserved by a safe placement in an empty cell -/

theorem getCell_setCell {g : Grid} (hg : wfG g) {r c : Nat} (hr : r < 9) (hc : c < 9)
    (v r' c' : Nat) :
    getCell (setCell g r c v) r' c' = if r' = r ∧ c' = c then v else getCell g r' c' := by
  by_cases h : r' = r ∧ c' = c
  · obtain ⟨rfl, rfl⟩ := h
    rw [if_pos ⟨rfl, rfl⟩, getCell_setCell_same hg hr hc]
  · rw [if_neg h, getCell_setCell_other _ _ _ _ _ _ h]

theorem rowCells_setCell_ne (g : Grid) (r c v : Nat) {r' : Nat} (h : r' ≠ r) :
    rowCells (setCell g r c v) r' = rowCells g r' := by
  unfold rowCells setCell
  exact getD_set_ne (fun he => h he.symm) _ _

theorem validG_setCell {g : Grid} (hg : wfG g) {r c d : Nat} (hr : r < 9) (hc : c < 9)
    (hd9 : d ≤ 9)
    (hrow : d ∉ rowCells g r) (hcol : d ∉ colCells g c) (hbox : d ∉ boxCells g r c)
    (hv : validG g) : validG (setCell g r c d) := by
  have hg' : wfG (setCell g r c d) := wfG_setCell hg hd9 r c
  obtain ⟨hvr, hvc, hvb⟩ := hv
  refine ⟨?_, ?_, ?_⟩
  · intro r' hr'
    by_cases hrr : r' = r
    · subst hrr
      refine nodupNZ_update (k := c) (d := d) ?_ hrow ?_ (hvr r' hr')
      · rw [length_rowCells hg' hr', length_rowCells hg hr']
      · intro j hj
        rw [length_rowCells hg hr'] at hj
        rw [rowCells_getD, getCell_setCell hg hr hc, rowCells_getD]
        by_cases hjc : j = c
        · rw [if_pos hjc, if_pos ⟨rfl, hjc⟩]
        · rw [if_neg hjc, if_neg (fun hand => hjc hand.2)]
    · rw [rowCells_setCell_ne _ _ _ _ hrr]
      exact hvr r' hr'
  · intro c' hc'
    by_cases hcc : c' = c
    · subst hcc
      refine nodupNZ_update (k := r) (d := d) ?_ hcol ?_ (hvc c' hc')
      · rw [length_colCells hg' c', length_colCells hg c']
      · intro j hj
        rw [length_colCells hg c'] at hj
        rw [colCells_getD, getCell_setCell hg hr hc, colCells_getD]
        by_cases hjr : j = r
        · rw [if_pos hjr, if_pos ⟨hjr, rfl⟩]
        · rw [if_neg hjr, if_neg (fun hand => hjr hand.1)]
    · refine nodupNZ_of_pointwise ?_ ?_ (hvc c' hc')
      · rw [length_colCells hg' c', length_colCells hg c']
      · intro j hj
        rw [length_colCells hg c'] at hj
        rw [colCells_getD, getCell_setCell hg hr hc, colCells_getD,
          if_neg (fun hand => hcc hand.2)]
  · intro r' hr' c' hc'
    by_cases hbb : r' / 3 = r / 3 ∧ c' / 3 = c / 3
    · obtain ⟨hb1, hb2⟩ := hbb
      have hbeq : boxCells g r' c' = boxCells g r c := by
        unfold boxCells
        rw [hb1, hb2]
      have hbeq' : ∀ h : Grid, boxCells h r' c' = boxCells h r c := by
        intro h
        unfold boxCells
        rw [hb1, hb2]
      rw [hbeq' (setCell g r c d)]
      refine nodupNZ_update (k := 3 * (r % 3) + c % 3) (d := d)
        ((length_boxCells _ _ _).trans (length_boxCells _ _ _).symm) hbox ?_ (hvb r hr c hc)
      intro j hj
      rw [length_boxCells] at hj
      rw [boxCells_getD _ _ _ hj, getCell_setCell hg hr hc, boxCells_getD _ _ _ hj]
      by_cases hjk : j = 3 * (r % 3) + c % 3
      · rw [if_pos hjk, if_pos (show 3 * (r / 3) + j / 3 = r ∧ 3 * (c / 3) + j % 3 = c by omega)]
      · rw [if_neg hjk, if_neg (show ¬(3 * (r / 3) + j / 3 = r ∧ 3 * (c / 3) + j % 3 = c) by omega)]
    · refine nodupNZ_of_pointwise
        ((length_boxCells _ _ _).trans (length_boxCells _ _ _).symm) ?_ (hvb r' hr' c' hc')
      intro j hj
      rw [length_boxCells] at hj
      rw [boxCells_getD _ _ _ hj, getCell_setCell hg hr hc, boxCells_getD _ _ _ hj,
        if_neg (show ¬(3 * (r' / 3) + j / 3 = r ∧ 3 * (c' / 3) + j % 3 = c) by omega)]

/-! ## The pivot contract and the empty-cell count -/

/-- What the search requires of a pivot choice: on well-formed grids, a
returned cell is an in-bounds empty cell, and `none` is returned only on
full grids. -/
def pickSpec (pick : Grid → Option (Nat × Nat)) : Prop :=
  ∀ g : Grid, wfG g →
    (∀ r c, pick g = some (r, c) → r < 9 ∧ c < 9 ∧ getCell g r c = 0) ∧
      (pick g = none → fullG g)

theorem zerosG_le_81 (g : Grid) : zerosG g ≤ 81 := by
  unfold zerosG
  exact (Finset.card_filter_le _ _).trans (by rw [Finset.card_range])

theorem zerosG_pos {g : Grid} {r c : Nat} (hr : r < 9) (hc : c < 9)
    (hz : getCell g r c = 0) : 1 ≤ zerosG g := by
  unfold zerosG
  rw [Nat.one_le_iff_ne_zero, Ne, Finset.card_eq_zero, Finset.eq_empty_iff_forall_not_mem]
  intro hemp
  refine hemp (9 * r + c) (Finset.mem_filter.mpr ⟨Finset.mem_range.mpr (by omega), ?_⟩)
  have h1 : (9 * r + c) / 9 = r := by omega
  have h2 : (9 * r + c) % 9 = c := by omega
  rw [h1, h2]
  exact hz

theorem zerosG_setCell {g : Grid} (hg : wfG g) {r c : Nat} (hr : r < 9) (hc : c < 9)
    (hz : getCell g r c = 0) {v : Nat} (hv : v ≠ 0) :
    zerosG (setCell g r c v) + 1 = zerosG g := by
  unfold zerosG
  have hmem : 9 * r + c ∈ (Finset.range 81).filter
      (fun i => getCell g (i / 9) (i % 9) = 0) := by
    refine Finset.mem_filter.mpr ⟨Finset.mem_range.mpr (by omega), ?_⟩
    have h1 : (9 * r + c) / 9 = r := by omega
    have h2 : (9 * r + c) % 9 = c := by omega
    rw [h1, h2]
    exact hz
  have hset : (Finset.range 81).filter
      (fun i => getCell (setCell g r c v) (i / 9) (i % 9) = 0) =
      ((Finset.range 81).filter (fun i => getCell g (i / 9) (i % 9) = 0)).erase
        (9 * r + c) := by
    ext i
    simp only [Finset.mem_filter, Finset.mem_erase, Finset.mem_range, decide_eq_true_eq]
    constructor
    · rintro ⟨hi, hzero⟩
      rw [getCell_setCell hg hr hc] at hzero
      by_cases hieq : i / 9 = r ∧ i % 9 = c
      · rw [if_pos hieq] at hzero
        exact absurd hzero hv
      · rw [if_neg hieq] at hzero
        exact ⟨by omega, hi, hzero⟩
    · rintro ⟨hne, hi, hzero⟩
      refine ⟨hi, ?_⟩
      rw [getCell_setCell hg hr hc, if_neg (by omega)]
      exact hzero
  rw [hset, Finset.card_erase_of_mem hmem]
  have := Finset.card_pos.mpr ⟨9 * r + c, hmem⟩
  omega

/-! ## Validity restricts to sub-grids, and a completion determines the digit -/

/-- Each cell of `s` is empty or equal to the corresponding cell of `G`. -/
def agreesWith (G s : Grid) : Prop :=
  ∀ r < 9, ∀ c < 9, getCell s r c = 0 ∨ getCell s r c = getCell G r c

theorem nodupNZ_of_agree_entries {l l' : List Nat} (hlen : l'.length = l.length)
    (hpt : ∀ j, j < l.length → l'.getD j 0 = 0 ∨ l'.getD j 0 = l.getD j 0)
    (h : nodupNZ l) : nodupNZ l' := by
  rw [nodupNZ_iff_getD] at h ⊢
  intro i j hi hj hij hne heq
  rw [hlen] at hi hj
  rcases hpt i hi with h0 | hei
  · exact hne h0
  rcases hpt j hj with h0 | hej
  · rw [heq] at hne
    exact hne h0
  · rw [hei] at hne heq
    rw [hej] at heq
    exact h i j hi hj hij hne heq

theorem validG_of_agrees {G s : Grid} (hwG : wfG G) (hws : wfG s)
    (hag : agreesWith G s) (hv : validG G) : validG s := by
  obtain ⟨hvr, hvc, hvb⟩ := hv
  refine ⟨?_, ?_, ?_⟩
  · intro r hr
    refine nodupNZ_of_agree_entries
      ((length_rowCells hws hr).trans (length_rowCells hwG hr).symm) ?_ (hvr r hr)
    intro j hj
    rw [length_rowCells hwG hr] at hj
    rw [rowCells_getD, rowCells_getD]
    exact hag r hr j hj
  · intro c hc
    refine nodupNZ_of_agree_entries
      ((length_colCells hws c).trans (length_colCells hwG c).symm) ?_ (hvc c hc)
    intro j hj
    rw [length_colCells hwG c] at hj
    rw [colCells_getD, colCells_getD]
    exact hag j hj c hc
  · intro r hr c hc
    refine nodupNZ_of_agree_entries
      ((length_boxCells _ _ _).trans (length_boxCells _ _ _).symm) ?_ (hvb r hr c hc)
    intro j hj
    rw [length_boxCells] at hj
    rw [boxCells_getD _ _ _ hj, boxCells_getD _ _ _ hj]
    exact hag _ (by omega) _ (by omega)

theorem getCell_eq_getElem {g : Grid} {r c : Nat} (hr : r < g.length)
    (hc : c < g[r].length) : getCell g r c = g[r][c] := by
  unfold getCell
  have h1 : g.getD r [] = g[r] := by
    rw [List.getD_eq_getElem?_getD, List.getElem?_eq_getElem hr, Option.getD_some]
  rw [h1, List.getD_eq_getElem?_getD, List.getElem?_eq_getElem hc, Option.getD_some]

theorem grid_eq_of_getCell {g h : Grid} (hg : wfG g) (hh : wfG h)
    (hpt : ∀ r < 9, ∀ c < 9, getCell g r c = getCell h r c) : g = h := by
  have hlg := hg.1
  have hlh := hh.1
  apply List.ext_getElem (by omega)
  intro r hr1 hr2
  have hr9 : r < 9 := by omega
  have hrowg : g[r].length = 9 := (hg.2 _ (List.getElem_mem hr1)).1
  have hrowh : h[r].length = 9 := (hh.2 _ (List.getElem_mem hr2)).1
  apply List.ext_getElem (by omega)
  intro c hc1 hc2
  have hc9 : c < 9 := by omega
  rw [← getCell_eq_getElem hr1 hc1, ← getCell_eq_getElem hr2 hc2]
  exact hpt r hr9 c hc9

theorem not_mem_of_nodup_pointwise {lg lh : List Nat} {d k : Nat}
    (hleng : lg.length = 9) (hlenh : lh.length = 9)
    (hpt : ∀ j, j < 9 → lg.getD j 0 = 0 ∨ lg.getD j 0 = lh.getD j 0)
    (hk : k < 9) (hk0 : lg.getD k 0 = 0) (hkd : lh.getD k 0 = d) (hd0 : d ≠ 0)
    (hnd : nodupNZ lh) : d ∉ lg := by
  intro hmem
  obtain ⟨j, hj, hjd⟩ := List.mem_iff_getElem.mp hmem
  rw [hleng] at hj
  have hgj : lg.getD j 0 = d := by
    rw [getD_eq_getElem (by omega)]
    exact hjd
  have hhj : lh.getD j 0 = d := by
    rcases hpt j hj with h0 | hag
    · rw [hgj] at h0
      exact absurd h0 hd0
    · rw [← hag, hgj]
  have hjk : j ≠ k := fun he => hd0 (by rw [← hgj, he, hk0])
  rw [nodupNZ_iff_getD] at hnd
  rcases Nat.lt_or_ge j k with hlt | hge
  · exact hnd j k (by omega) (by omega) hlt (by rw [hhj]; exact hd0) (by rw [hhj, hkd])
  · have hlt : k < j := by omega
    exact hnd k j (by omega) (by omega) hlt (by rw [hkd]; exact hd0) (by rw [hkd, hhj])

/-- In an empty cell of `g`, any completion `h` of `g` places a digit that
the safety check on `g` accepts, and the completion still extends the grid
with that digit placed. -/
theorem safe_of_completion {g h : Grid} (hwg : wfG g) (hcomp : isCompletion g h)
    {r c : Nat} (hr : r < 9) (hc : c < 9) (hz : getCell g r c = 0) :
    1 ≤ getCell h r c ∧ getCell h r c ≤ 9 ∧
      is_safe_placement g r c (getCell h r c) = true ∧
      gridExtends (setCell g r c (getCell h r c)) h := by
  obtain ⟨hwh, hfh, hvh, hext⟩ := hcomp
  set d := getCell h r c with hd
  have hd0 : d ≠ 0 := hfh r hr c hc
  have hd9 : d ≤ 9 := getCell_le_9 hwh r c
  have hag : agreesWith h g := by
    intro r' hr' c' hc'
    by_cases h0 : getCell g r' c' = 0
    · exact Or.inl h0
    · exact Or.inr (hext r' hr' c' hc' h0).symm
  have hptrow : ∀ j, j < 9 → (rowCells g r).getD j 0 = 0 ∨
      (rowCells g r).getD j 0 = (rowCells h r).getD j 0 := by
    intro j hj
    rw [rowCells_getD, rowCells_getD]
    exact hag r hr j hj
  have hptcol : ∀ j, j < 9 → (colCells g c).getD j 0 = 0 ∨
      (colCells g c).getD j 0 = (colCells h c).getD j 0 := by
    intro j hj
    rw [colCells_getD, colCells_getD]
    exact hag j hj c hc
  have hptbox : ∀ j, j < 9 → (boxCells g r c).getD j 0 = 0 ∨
      (boxCells g r c).getD j 0 = (boxCells h r c).getD j 0 := by
    intro j hj
    rw [boxCells_getD _ _ _ hj, boxCells_getD _ _ _ hj]
    exact hag _ (by omega) _ (by omega)
  have hvg : validG g := validG_of_agrees hwh hwg hag hvh
  refine ⟨by omega, hd9, ?_, ?_⟩
  · rw [is_safe_placement_iff g r c (by omega)]
    refine ⟨⟨hvg.1 r hr, ?_⟩, ⟨hvg.2.1 c hc, ?_⟩, hvg.2.2 r hr c hc, ?_⟩
    · exact not_mem_of_nodup_pointwise (length_rowCells hwg hr) (length_rowCells hwh hr)
        hptrow hc (by rw [rowCells_getD]; exact hz) (by rw [rowCells_getD]) hd0 (hvh.1 r hr)
    · exact not_mem_of_nodup_pointwise (length_colCells hwg c) (length_colCells hwh c)
        hptcol hr (by rw [colCells_getD]; exact hz) (by rw [colCells_getD]) hd0 (hvh.2.1 c hc)
    · refine not_mem_of_nodup_pointwise (length_boxCells _ _ _) (length_boxCells _ _ _)
        hptbox (k := 3 * (r % 3) + c % 3) (by omega) ?_ ?_ hd0 (hvh.2.2 r hr c hc)
      · rw [boxCells_getD _ _ _ (by omega),
          show 3 * (r / 3) + (3 * (r % 3) + c % 3) / 3 = r by omega,
          show 3 * (c / 3) + (3 * (r % 3) + c % 3) % 3 = c by omega]
        exact hz
      · rw [boxCells_getD _ _ _ (by omega),
          show 3 * (r / 3) + (3 * (r % 3) + c % 3) / 3 = r by omega,
          show 3 * (c / 3) + (3 * (r % 3) + c % 3) % 3 = c by omega]
  · intro r' hr' c' hc' hnz
    rw [getCell_setCell hwg hr hc] at hnz ⊢
    by_cases heq : r' = r ∧ c' = c
    · rw [if_pos heq]
      obtain ⟨rfl, rfl⟩ := heq
      rfl
    · rw [if_neg heq]
      rw [if_neg heq] at hnz
      exact hext r' hr' c' hc' hnz

/-! ## The first-empty-cell pivot satisfies the pivot contract -/

theorem flatten_getD {g : Grid} (hrows : ∀ row ∈ g, row.length = 9) :
    ∀ i : Nat, g.flatten.getD i 0 = getCell g (i / 9) (i % 9) := by
  induction g with
  | nil =>
    intro i
    unfold getCell
    rfl
  | cons row rest ih =>
    intro i
    have hrl : row.length = 9 := hrows row (List.mem_cons_self row rest)
    rw [List.flatten_cons]
    by_cases hi : i < 9
    · rw [List.getD_append _ _ _ _ (by omega)]
      have h0 : i / 9 = 0 := by omega
      have h1 : i % 9 = i := by omega
      rw [h0, h1]
      rfl
    · rw [List.getD_append_right _ _ _ _ (by omega), hrl,
        ih (fun r hr => hrows r (List.mem_cons_of_mem row hr)) (i - 9)]
      have h0 : i / 9 = (i - 9) / 9 + 1 := by omega
      have h1 : i % 9 = (i - 9) % 9 := by omega
      rw [h0, h1]
      unfold getCell
      rw [List.getD_cons_succ]

theorem length_flatten_of_wfG {g : Grid} (hg : wfG g) : g.flatten.length = 81 := by
  rw [List.length_flatten]
  have hmap : g.map List.length = List.replicate 9 9 := by
    rw [List.eq_replicate_iff]
    refine ⟨by rw [List.length_map, hg.1], ?_⟩
    intro x hx
    obtain ⟨row, hrow, hlx⟩ := List.mem_map.mp hx
    rw [← hlx]
    exact (hg.2 row hrow).1
  rw [hmap]
  simp

theorem pickSpec_first : pickSpec get_first_empty_index := by
  intro g hw
  constructor
  · intro r c hp
    unfold get_first_empty_index at hp
    cases hidx : g.flatten.findIdx? (fun v => v = 0) with
    | none =>
      rw [hidx] at hp
      cases hp
    | some idx =>
      rw [hidx] at hp
      obtain ⟨hlt, hpi, -⟩ := List.findIdx?_eq_some_iff_getElem.mp hidx
      rw [length_flatten_of_wfG hw] at hlt
      have hcell : getCell g (idx / 9) (idx % 9) = 0 := by
        rw [← flatten_getD (fun row hrow => (hw.2 row hrow).1) idx,
          getD_eq_getElem (by rw [length_flatten_of_wfG hw]; omega)]
        simpa using hpi
      injection hp with hpair
      have h1 : idx / 9 = r := congrArg Prod.fst hpair
      have h2 : idx % 9 = c := congrArg Prod.snd hpair
      subst h1 h2
      exact ⟨by omega, by omega, hcell⟩
  · intro hp r hr c hc
    unfold get_first_empty_index at hp
    cases hidx : g.flatten.findIdx? (fun v => v = 0) with
    | some idx =>
      rw [hidx] at hp
      cases hp
    | none =>
      have hall := List.findIdx?_eq_none_iff.mp hidx
      intro hzero
      have hmem : getCell g r c ∈ g.flatten := by
        have hgd : g.flatten.getD (9 * r + c) 0 = getCell g r c := by
          rw [flatten_getD (fun row hrow => (hw.2 row hrow).1) (9 * r + c),
            show (9 * r + c) / 9 = r by omega, show (9 * r + c) % 9 = c by omega]
        rw [← hgd]
        exact getD_mem_of_lt (by rw [length_flatten_of_wfG hw]; omega) 0
      have := hall _ hmem
      rw [hzero] at this
      simp at this

/-! ## Soundness, completeness and distinctness of the search -/

theorem solsWith_sound {pick : Grid → Option (Nat × Nat)} (hpick : pickSpec pick) :
    ∀ fuel : Nat, ∀ g : Grid, wfG g → ∀ h ∈ solsWith pick fuel g,
      wfG h ∧ fullG h ∧ gridExtends g h ∧ (validG g → validG h) := by
  intro fuel
  induction fuel with
  | zero =>
    intro g hw h hm
    cases hm
  | succ n ih =>
    intro g hw h hm
    unfold solsWith at hm
    cases hp : pick g with
    | none =>
      rw [hp] at hm
      have heq : h = g := by simpa using hm
      subst heq
      exact ⟨hw, (hpick _ hw).2 hp, fun r _ c _ _ => rfl, id⟩
    | some rc =>
      obtain ⟨r, c⟩ := rc
      rw [hp] at hm
      rw [mem_appendDigits] at hm
      obtain ⟨d, hd, hsafe, hm⟩ := hm
      have hd19 : 1 ≤ d ∧ d ≤ 9 := by
        simp only [List.mem_cons, List.not_mem_nil, or_false] at hd
        omega
      obtain ⟨hrc, hcc, hz⟩ := (hpick g hw).1 r c hp
      have hw' : wfG (setCell g r c d) := wfG_setCell hw hd19.2 r c
      obtain ⟨hwh, hfh, hexth, hvh⟩ := ih (setCell g r c d) hw' h hm
      refine ⟨hwh, hfh, ?_, ?_⟩
      · intro r' hr' c' hc' hnz
        have hne : ¬(r' = r ∧ c' = c) := by
          rintro ⟨rfl, rfl⟩
          exact hnz hz
        have := hexth r' hr' c' hc'
          (by rw [getCell_setCell hw hrc hcc, if_neg hne]; exact hnz)
        rw [getCell_setCell hw hrc hcc, if_neg hne] at this
        exact this
      · intro hvg
        apply hvh
        have hiff := (is_safe_placement_iff g r c hd19.1).mp hsafe
        exact validG_setCell hw hrc hcc hd19.2 hiff.1.2 hiff.2.1.2 hiff.2.2.2 hvg

theorem solsWith_complete {pick : Grid → Option (Nat × Nat)} (hpick : pickSpec pick) :
    ∀ fuel : Nat, ∀ g : Grid, wfG g → zerosG g < fuel →
      ∀ h : Grid, isCompletion g h → h ∈ solsWith pick fuel g := by
  intro fuel
  induction fuel with
  | zero =>
    intro g hw hfuel
    omega
  | succ n ih =>
    intro g hw hfuel h hcomp
    unfold solsWith
    cases hp : pick g with
    | none =>
      have hfull := (hpick g hw).2 hp
      have heq : h = g := by
        apply grid_eq_of_getCell hcomp.1 hw
        intro r hr c hc
        exact hcomp.2.2.2 r hr c hc (hfull r hr c hc)
      simp [heq]
    | some rc =>
      obtain ⟨r, c⟩ := rc
      obtain ⟨hrc, hcc, hz⟩ := (hpick g hw).1 r c hp
      obtain ⟨hd1, hd9, hsafe, hext'⟩ := safe_of_completion hw hcomp hrc hcc hz
      rw [mem_appendDigits]
      refine ⟨getCell h r c, by simp only [List.mem_cons]; omega, hsafe, ?_⟩
      apply ih (setCell g r c (getCell h r c)) (wfG_setCell hw hd9 r c)
      · have := zerosG_setCell hw hrc hcc hz (v := getCell h r c) (by omega)
        omega
      · exact ⟨hcomp.1, hcomp.2.1, hcomp.2.2.1, hext'⟩

theorem appendDigits_nodup {rec : Grid → List Grid} {r c : Nat} {g : Grid}
    (l : List Nat) (hrecnd : ∀ d ∈ l, (rec (setCell g r c d)).Nodup)
    (hval : ∀ d ∈ l, ∀ h', h' ∈ rec (setCell g r c d) → getCell h' r c = d)
    (hnd : l.Nodup) : (appendDigits rec r c g l).Nodup := by
  induction l with
  | nil => exact List.nodup_nil
  | cons d rest ihl =>
    unfold appendDigits
    rw [List.nodup_append]
    obtain ⟨hdn, hrestnd⟩ := List.nodup_cons.mp hnd
    refine ⟨?_, ?_, ?_⟩
    · by_cases hs : is_safe_placement g r c d = true
      · rw [if_pos hs]
        exact hrecnd d (List.mem_cons_self d rest)
      · rw [if_neg hs]
        exact List.nodup_nil
    · exact ihl (fun d' hd' => hrecnd d' (List.mem_cons_of_mem d hd'))
        (fun d' hd' => hval d' (List.mem_cons_of_mem d hd')) hrestnd
    · intro x hxA hxB
      rw [mem_appendDigits] at hxB
      obtain ⟨d', hd', hs', hx'⟩ := hxB
      have hxd : getCell x r c = d := by
        by_cases hs : is_safe_placement g r c d = true
        · rw [if_pos hs] at hxA
          exact hval d (List.mem_cons_self d rest) x hxA
        · rw [if_neg hs] at hxA
          cases hxA
      have hxd' : getCell x r c = d' :=
        hval d' (List.mem_cons_of_mem d hd') x hx'
      exact hdn (by rw [← hxd, hxd']; exact hd')

theorem solsWith_nodup {pick : Grid → Option (Nat × Nat)} (hpick : pickSpec pick) :
    ∀ fuel : Nat, ∀ g : Grid, wfG g → (solsWith pick fuel g).Nodup := by
  intro fuel
  induction fuel with
  | zero =>
    intro g hw
    exact List.nodup_nil
  | succ n ih =>
    intro g hw
    unfold solsWith
    cases hp : pick g with
    | none => exact List.nodup_singleton g
    | some rc =>
      obtain ⟨r, c⟩ := rc
      obtain ⟨hrc, hcc, hz⟩ := (hpick g hw).1 r c hp
      refine appendDigits_nodup _ ?_ ?_ (by decide)
      · intro d hd
        have hd9 : d ≤ 9 := by
          simp only [List.mem_cons, List.not_mem_nil, or_false] at hd
          omega
        exact ih (setCell g r c d) (wfG_setCell hw hd9 r c)
      · intro d hd h' hm
        have hd19 : 1 ≤ d ∧ d ≤ 9 := by
          simp only [List.mem_cons, List.not_mem_nil, or_false] at hd
          omega
        obtain ⟨-, -, hexth, -⟩ :=
          solsWith_sound hpick n (setCell g r c d) (wfG_setCell hw hd19.2 r c) h' hm
        have := hexth r hrc c hcc
          (by rw [getCell_setCell_same hw hrc hcc]; omega)
        rw [getCell_setCell_same hw hrc hcc] at this
        exact this

/-- The central counting theorem: on a well-formed valid grid, the generic
backtracking count (with any pivot satisfying the contract) equals the number
of completions. -/
theorem countWith_eq_numSolutions {pick : Grid → Option (Nat × Nat)}
    (hpick : pickSpec pick) {g : Grid} (hw : wfG g) (hv : validG g) {fuel : Nat}
    (hfuel : zerosG g < fuel) : countWith pick fuel g = numSolutions g := by
  have hset : {h : Grid | isCompletion g h} = ((solsWith pick fuel g).toFinset : Set Grid) := by
    ext h
    constructor
    · intro hc
      rw [Finset.mem_coe, List.mem_toFinset]
      exact solsWith_complete hpick fuel g hw hfuel h hc
    · intro hm
      rw [Finset.mem_coe, List.mem_toFinset] at hm
      obtain ⟨hwh, hfh, hexth, hvh⟩ := solsWith_sound hpick fuel g hw h hm
      exact ⟨hwh, hfh, hvh hv, hexth⟩
  unfold numSolutions
  rw [hset, Set.ncard_coe_Finset,
    List.toFinset_card_of_nodup (solsWith_nodup hpick fuel g hw), countWith_eq_length]

theorem solution_count_eq_numSolutions {g : Grid} (hw : wfG g) (hv : validG g) :
    solution_count g = numSolutions g := by
  unfold solution_count
  rw [solution_countF_eq_countWith]
  refine countWith_eq_numSolutions pickSpec_first hw hv ?_
  have := zerosG_le_81 g
  omega

/-! ## A faster pivot (most-constrained empty cell), for concrete evaluation -/

def emptyCells (g : Grid) : List (Nat × Nat) :=
  (List.range 9).flatMap (fun r =>
    (List.range 9).filterMap (fun c => if getCell g r c = 0 then some (r, c) else none))

def houseMask (l : List Nat) : Nat :=
  l.foldl (fun m e => if e = 0 then m else m ||| (1 <<< (e - 1))) 0

/-- Lookup table: nibble `m` holds the number of digits 1–9 whose bit is not
set in the 9-bit used-digit mask `m` (only the pivot order depends on it). -/
def freeTable : Nat :=
  4367623077290611604609183542899508640617468325020331465696276639735454226239946642591715566487387942275480869399490248137247221838152571361414148819975112304287061320456268925831697543273998388731794318035462886437978148873717633894245709178936182628129405935985285276083751660687932743647197405867390894768755442694641471626644222454433444800425674034104231743267222644349069421602972887922854689225493284182776884035294448067939012212660655091499804790530076275939164331871429756922814057854789967384791129288709867834878494031656041144970724425932262034850207766421100719488432408345867526676680304698428082704202845557421200960838316815094870709895211077962237500999047296238729192756052169104275122018344447918262394227478144260939150493329553996520445180869113683078891660044983081612516683308229109070807078383153477319211532647133612230783875740713086881453156726890649111220090907388526141454459612063455388138002747509941062874674775048427467324468884088563577031461868432310662726723086624769643147579343388726846315146999028735279509321723453728272015104090731659948889939365896852390294141923174598624185462861489187184200956560758728413864651649688868490307764436934012820256159127271423978179035254223645334782376073

/-- Number of digits 1–9 not marked in the used-digit mask `m` (only used to
order the search; no correctness claim depends on its value). -/
def bitsFree (m : Nat) : Nat := freeTable >>> (4 * (m % 1024)) % 16

/-- The nine row masks (`houseMask` of each row), packed ten bits apart;
only the pivot order depends on these values. -/
def packedRowMasks (g : Grid) : Nat :=
  (g.foldl (fun (p : Nat × Nat) row =>
    (p.1 ||| (houseMask row <<< (10 * p.2)), p.2 + 1)) (0, 0)).1

/-- The nine column masks, packed ten bits apart, computed in one pass over
the rows; only the pivot order depends on these values. -/
def packedColMasks (g : Grid) : Nat :=
  g.foldl (fun acc row =>
    (row.foldl (fun (q : Nat × Nat) e =>
      (if e = 0 then q.1 else q.1 ||| (1 <<< (e - 1 + 10 * q.2)), q.2 + 1))
      (acc, 0)).1) 0

/-- The nine box masks (box `3 * (r / 3) + c / 3`), packed ten bits apart,
computed in one pass over the rows; only the pivot order depends on them. -/
def packedBoxMasks (g : Grid) : Nat :=
  (g.foldl (fun (p : Nat × Nat) row =>
    ((row.foldl (fun (q : Nat × Nat) e =>
      (if e = 0 then q.1
       else q.1 ||| (1 <<< (e - 1 + 10 * (3 * (p.2 / 3) + q.2 / 3))), q.2 + 1))
      (p.1, 0)).1, p.2 + 1)) (0, 0)).1

def argminBy (f : Nat × Nat → Nat) : Nat × Nat → List (Nat × Nat) → Nat × Nat
  | best, [] => best
  | best, x :: rest =>
    if f x < f best then argminBy f x rest else argminBy f best rest

/-- Pivot heuristic: an empty cell with the fewest candidate digits, judged
through per-house used-digit masks computed once per call. -/
def pickMRV (g : Grid) : Option (Nat × Nat) :=
  match emptyCells g with
  | [] => none
  | e :: es =>
    let rm := packedRowMasks g
    let cm := packedColMasks g
    let bm := packedBoxMasks g
    some (argminBy (fun rc => bitsFree
      ((rm >>> (10 * rc.1)) ||| (cm >>> (10 * rc.2)) |||
        (bm >>> (10 * (3 * (rc.1 / 3) + rc.2 / 3)))))
      e es)

def fastCount (g : Grid) : Nat := countWith pickMRV 82 g

theorem mem_emptyCells {g : Grid} {rc : Nat × Nat} :
    rc ∈ emptyCells g ↔ rc.1 < 9 ∧ rc.2 < 9 ∧ getCell g rc.1 rc.2 = 0 := by
  obtain ⟨r, c⟩ := rc
  unfold emptyCells
  rw [List.mem_flatMap]
  constructor
  · rintro ⟨r', hr', hmem⟩
    rw [List.mem_range] at hr'
    obtain ⟨c', hc', heq⟩ := List.mem_filterMap.mp hmem
    rw [List.mem_range] at hc'
    by_cases hz : getCell g r' c' = 0
    · rw [if_pos hz] at heq
      injection heq with hpair
      have h1 : r' = r := congrArg Prod.fst hpair
      have h2 : c' = c := congrArg Prod.snd hpair
      subst h1 h2
      exact ⟨hr', hc', hz⟩
    · rw [if_neg hz] at heq
      cases heq
  · rintro ⟨hr, hc, hz⟩
    refine ⟨r, List.mem_range.mpr hr, List.mem_filterMap.mpr
      ⟨c, List.mem_range.mpr hc, ?_⟩⟩
    rw [if_pos hz]

theorem argminBy_mem (f : Nat × Nat → Nat) :
    ∀ l : List (Nat × Nat), ∀ best, argminBy f best l = best ∨ argminBy f best l ∈ l := by
  intro l
  induction l with
  | nil =>
    intro best
    exact Or.inl rfl
  | cons x rest ih =>
    intro best
    unfold argminBy
    by_cases hf : f x < f best
    · rw [if_pos hf]
      rcases ih x with h | h
      · exact Or.inr (by rw [h]; exact List.mem_cons_self x rest)
      · exact Or.inr (List.mem_cons_of_mem x h)
    · rw [if_neg hf]
      rcases ih best with h | h
      · exact Or.inl h
      · exact Or.inr (List.mem_cons_of_mem x h)

theorem pickSpec_MRV : pickSpec pickMRV := by
  intro g hw
  constructor
  · intro r c hp
    unfold pickMRV at hp
    cases hce : emptyCells g with
    | nil =>
      rw [hce] at hp
      cases hp
    | cons e es =>
      rw [hce] at hp
      injection hp with hpair
      have hmem : (r, c) ∈ emptyCells g := by
        rw [hce]
        rcases argminBy_mem _ es e with h | h
        · rw [hpair] at h
          exact h ▸ List.mem_cons_self e es
        · rw [hpair] at h
          exact List.mem_cons_of_mem e h
      exact mem_emptyCells.mp hmem
  · intro hp r hr c hc hz
    unfold pickMRV at hp
    cases hce : emptyCells g with
    | cons e es =>
      rw [hce] at hp
      cases hp
    | nil =>
      have hmem : (r, c) ∈ emptyCells g := mem_emptyCells.mpr ⟨hr, hc, hz⟩
      rw [hce] at hmem
      cases hmem

theorem fastCount_eq_numSolutions {g : Grid} (hw : wfG g) (hv : validG g) :
    fastCount g = numSolutions g := by
  unfold fastCount
  refine countWith_eq_numSolutions pickSpec_MRV hw hv ?_
  have := zerosG_le_81 g
  omega

theorem solution_count_eq_fastCount {g : Grid} (hw : wfG g) (hv : validG g) :
    solution_count g = fastCount g := by
  rw [solution_count_eq_numSolutions hw hv, fastCount_eq_numSolutions hw hv]

/-- Bit `d - 1` of `houseMask l` is set exactly when digit `d` occurs in the
house `l`. -/
theorem testBit_houseMask (l : List Nat) {d : Nat} (hd : 1 ≤ d) :
    (houseMask l).testBit (d - 1) = true ↔ d ∈ l := by
  unfold houseMask
  have key : ∀ (l' : List Nat) (m : Nat),
      ((l'.foldl (fun m e => if e = 0 then m else m ||| (1 <<< (e - 1))) m).testBit
          (d - 1) = true) ↔
        (m.testBit (d - 1) = true ∨ d ∈ l') := by
    intro l'
    induction l' with
    | nil =>
      intro m
      simp
    | cons e rest ih =>
      intro m
      rw [List.foldl_cons, ih]
      by_cases he : e = 0
      · subst he
        simp only [if_pos rfl, List.mem_cons]
        constructor
        · rintro (h | h)
          · exact Or.inl h
          · exact Or.inr (Or.inr h)
        · rintro (h | h | h)
          · exact Or.inl h
          · omega
          · exact Or.inr h
      · rw [if_neg he, Nat.testBit_or, Bool.or_eq_true, Nat.one_shiftLeft]
        simp only [List.mem_cons]
        by_cases hede : e - 1 = d - 1
        · have hed : e = d := by omega
          subst hed
          rw [Nat.testBit_two_pow_self]
          tauto
        · have hne : d ≠ e := by omega
          rw [Nat.testBit_two_pow_of_ne hede]
          simp only [Bool.false_eq_true, or_false]
          tauto
  rw [key l 0]
  simp

/-- The used-digit mask of the three houses through `(r, c)`. -/
def maskAt (g : Grid) (r c : Nat) : Nat :=
  houseMask (rowCells g r) ||| houseMask (colCells g c) ||| houseMask (boxCells g r c)

/-- The digit loop of `countFast`: `sumDigits` with the three house scans of
`is_safe_placement` replaced by one bit test on the precomputed mask `m`. -/
def sumDigitsM (rec : Grid → Nat) (r c : Nat) (g : Grid) (m : Nat) : List Nat → Nat
  | [] => 0
  | d :: rest =>
    (if m.testBit (d - 1) then 0 else rec (setCell g r c d)) +
      sumDigitsM rec r c g m rest

/-- `countWith pickMRV` with the per-digit house scans replaced by bit tests
on a used-digit mask computed once per node; `countFast_eq_countWith` shows
it computes the same count on well-formed valid grids. -/
def countFast : Nat → Grid → Nat
  | 0, _ => 0
  | fuel + 1, g =>
    match pickMRV g with
    | none => 1
    | some (r, c) =>
      sumDigitsM (countFast fuel) r c g (maskAt g r c) [1, 2, 3, 4, 5, 6, 7, 8, 9]

theorem sumDigitsM_eq_sumDigits {g : Grid} (hv : validG g) {r c : Nat}
    (hr : r < 9) (hc : c < 9) {rec rec' : Grid → Nat}
    (hrec : ∀ d, 1 ≤ d → d ≤ 9 → is_safe_placement g r c d = true →
      rec (setCell g r c d) = rec' (setCell g r c d)) :
    ∀ l : List Nat, (∀ d ∈ l, 1 ≤ d ∧ d ≤ 9) →
      sumDigitsM rec r c g (maskAt g r c) l = sumDigits rec' r c g l := by
  intro l hl
  induction l with
  | nil => rfl
  | cons d rest ih =>
    obtain ⟨hd1, hd9⟩ := hl d (List.mem_cons_self d rest)
    unfold sumDigitsM sumDigits
    rw [ih (fun x hx => hl x (List.mem_cons_of_mem d hx))]
    congr 1
    have hbit : (maskAt g r c).testBit (d - 1) = true ↔
        d ∈ rowCells g r ∨ d ∈ colCells g c ∨ d ∈ boxCells g r c := by
      unfold maskAt
      rw [Nat.testBit_or, Nat.testBit_or, Bool.or_eq_true, Bool.or_eq_true,
        testBit_houseMask _ hd1, testBit_houseMask _ hd1, testBit_houseMask _ hd1]
      tauto
    by_cases hmem : d ∈ rowCells g r ∨ d ∈ colCells g c ∨ d ∈ boxCells g r c
    · have hns : ¬ is_safe_placement g r c d = true := by
        intro hs
        rcases (is_safe_placement_iff g r c hd1).mp hs with ⟨⟨_, h1⟩, ⟨_, h2⟩, _, h3⟩
        rcases hmem with h | h | h
        · exact h1 h
        · exact h2 h
        · exact h3 h
      rw [if_pos (hbit.mpr hmem), if_neg hns]
    · have hsafe : is_safe_placement g r c d = true := by
        obtain ⟨hvr, hvc, hvb⟩ := hv
        push_neg at hmem
        exact (is_safe_placement_iff g r c hd1).mpr
          ⟨⟨hvr r hr, hmem.1⟩, ⟨hvc c hc, hmem.2.1⟩, hvb r hr c hc, hmem.2.2⟩
      have hnb : ¬ (maskAt g r c).testBit (d - 1) = true := fun hb => hmem (hbit.mp hb)
      rw [if_neg hnb, if_pos hsafe]
      exact hrec d hd1 hd9 hsafe

theorem countFast_eq_countWith :
    ∀ (fuel : Nat) (g : Grid), wfG g → validG g →
      countFast fuel g = countWith pickMRV fuel g := by
  intro fuel
  induction fuel with
  | zero =>
    intro g _ _
    rfl
  | succ fuel ih =>
    intro g hw hv
    unfold countFast countWith
    cases hp : pickMRV g with
    | none => rfl
    | some rc =>
      obtain ⟨r, c⟩ := rc
      obtain ⟨hr, hc, hz⟩ := (pickSpec_MRV g hw).1 r c hp
      refine sumDigitsM_eq_sumDigits hv hr hc ?_ [1, 2, 3, 4, 5, 6, 7, 8, 9] (by decide)
      intro d hd1 hd9 hs
      rcases (is_safe_placement_iff g r c hd1).mp hs with ⟨⟨_, h1⟩, ⟨_, h2⟩, _, h3⟩
      exact ih (setCell g r c d) (wfG_setCell hw hd9 r c)
        (validG_setCell hw hr hc hd9 h1 h2 h3 hv)

/-! ## The masking pipeline (`mask_grid`)

The random source is an explicit stream `rng : Nat → Nat` of draws; the
`i`-th call of `gen_range(0..n)` is modelled as `rng i % n`, so every
realizable sequence of in-range draws is covered. The two rejection-sampling
selectors and the three unbounded retry loops carry explicit fuel
(`none` = the loop did not finish within the fuel, the model's rendering of
non-termination). The `assert!(given_count >= 17)` failure is `panic`. -/

inductive MaskResult
  | panic
  | timeout
  | ok (g : Grid)
deriving DecidableEq

structure MaskSt where
  masked : Grid
  mask_count : Nat
  removed : Nat
  i : Nat
deriving DecidableEq

/-- `rng.gen_range(0..n)`: the `i`-th draw of the stream, reduced into range. -/
def randBelow (rng : Nat → Nat) (i n : Nat) : Nat := rng i % n

/-- `get_random_unmasked_cell`: sample `(row, col)` uniformly until the cell
is nonzero in `g`; also returns the next stream position. -/
def get_random_unmasked_cellF (g : Grid) (rng : Nat → Nat) :
    Nat → Nat → Option ((Nat × Nat) × Nat)
  | 0, _ => none
  | fuel + 1, i =>
    let row := randBelow rng i 9
    let col := randBelow rng (i + 1) 9
    if getCell g row col ≠ 0 then some ((row, col), i + 2)
    else get_random_unmasked_cellF g rng fuel (i + 2)

/-- `get_jittery_mirrored_cell`: perturb the point-symmetric mirror of
`(row, col)` by offsets in `[-3, 3]` (wrapped mod 9) until the resulting
cell is nonzero in `g`. -/
def get_jittery_mirrored_cellF (g : Grid) (row col : Nat) (rng : Nat → Nat) :
    Nat → Nat → Option ((Nat × Nat) × Nat)
  | 0, _ => none
  | fuel + 1, i =>
    let mirror_r : Int := 9 - (row : Int) - 1
    let mirror_c : Int := 9 - (col : Int) - 1
    let new_r := ((mirror_r + ((randBelow rng i 7 : Int) - 3) + 9) % 9).toNat
    let new_c := ((mirror_c + ((randBelow rng (i + 1) 7 : Int) - 3) + 9) % 9).toNat
    if getCell g new_r new_c ≠ 0 then some ((new_r, new_c), i + 2)
    else get_jittery_mirrored_cellF g row col rng fuel (i + 2)

/-- The consecutive `masked_grid[r][c] = 0;` statements of one trial. -/
def maskCells (g : Grid) : List (Nat × Nat) → Grid :=
  List.foldl (fun m rc => setCell m rc.1 rc.2 0) g

/-- The consecutive `masked_grid[r][c] = grid[r][c];` restore statements. -/
def restoreCells (grid : Grid) (g : Grid) : List (Nat × Nat) → Grid :=
  List.foldl (fun m rc => setCell m rc.1 rc.2 (getCell grid rc.1 rc.2)) g

/-- One propose→verify→commit-or-restore trial on the chosen cells: mask
them, keep the removals if the puzzle still has exactly one solution,
otherwise restore the original values from `grid`. -/
def maskTrial (grid : Grid) (s : MaskSt) (cells : List (Nat × Nat)) (k i' : Nat) :
    MaskSt :=
  let m1 := maskCells s.masked cells
  if solution_count m1 = 1 then ⟨m1, s.mask_count - k, s.removed + k, i'⟩
  else ⟨restoreCells grid m1 cells, s.mask_count, s.removed, i'⟩

/-- One iteration of the quad phase: two independent random cells and their
jittered mirrors. -/
def stepQuad (grid : Grid) (rng : Nat → Nat) (selFuel : Nat) (s : MaskSt) :
    Option MaskSt :=
  match get_random_unmasked_cellF grid rng selFuel s.i with
  | none => none
  | some ((c1r, c1c), i1) =>
    match get_random_unmasked_cellF grid rng selFuel i1 with
    | none => none
    | some ((c2r, c2c), i2) =>
      match get_jittery_mirrored_cellF grid c1r c1c rng selFuel i2 with
      | none => none
      | some ((c3r, c3c), i3) =>
        match get_jittery_mirrored_cellF grid c2r c2c rng selFuel i3 with
        | none => none
        | some ((c4r, c4c), i4) =>
          some (maskTrial grid s [(c1r, c1c), (c2r, c2c), (c3r, c3c), (c4r, c4c)] 4 i4)

/-- One iteration of the pair phase: a random cell and its jittered mirror. -/
def stepPair (grid : Grid) (rng : Nat → Nat) (selFuel : Nat) (s : MaskSt) :
    Option MaskSt :=
  match get_random_unmasked_cellF grid rng selFuel s.i with
  | none => none
  | some ((c1r, c1c), i1) =>
    match get_jittery_mirrored_cellF grid c1r c1c rng selFuel i1 with
    | none => none
    | some ((c2r, c2c), i2) =>
      some (maskTrial grid s [(c1r, c1c), (c2r, c2c)] 2 i2)

/-- One iteration of the single phase. -/
def stepSingle (grid : Grid) (rng : Nat → Nat) (selFuel : Nat) (s : MaskSt) :
    Option MaskSt :=
  match get_random_unmasked_cellF grid rng selFuel s.i with
  | none => none
  | some ((cr, cc), i1) => some (maskTrial grid s [(cr, cc)] 1 i1)

def phaseQuads (grid : Grid) (rng : Nat → Nat) (selFuel : Nat) :
    Nat → MaskSt → Option MaskSt
  | 0, s => if 4 ≤ s.mask_count ∧ s.removed < 20 then none else some s
  | fuel + 1, s =>
    if 4 ≤ s.mask_count ∧ s.removed < 20 then
      match stepQuad grid rng selFuel s with
      | none => none
      | some s' => phaseQuads grid rng selFuel fuel s'
    else some s

def phasePairs (grid : Grid) (rng : Nat → Nat) (selFuel : Nat) :
    Nat → MaskSt → Option MaskSt
  | 0, s => if 2 ≤ s.mask_count ∧ s.removed < 30 then none else some s
  | fuel + 1, s =>
    if 2 ≤ s.mask_count ∧ s.removed < 30 then
      match stepPair grid rng selFuel s with
      | none => none
      | some s' => phasePairs grid rng selFuel fuel s'
    else some s

def phaseSingles (grid : Grid) (rng : Nat → Nat) (selFuel : Nat) :
    Nat → MaskSt → Option MaskSt
  | 0, s => if 1 ≤ s.mask_count then none else some s
  | fuel + 1, s =>
    if 1 ≤ s.mask_count then
      match stepSingle grid rng selFuel s with
      | none => none
      | some s' => phaseSingles grid rng selFuel fuel s'
    else some s

/-- `mask_grid(grid, given_count)`: assert the precondition, then run the
three phases starting from a clone of `grid`. -/
def mask_gridF (grid : Grid) (given_count : Nat) (rng : Nat → Nat)
    (selFuel loopFuel : Nat) : MaskResult :=
  if given_count < 17 then .panic
  else
    let s0 : MaskSt := ⟨grid, 9 * 9 - given_count, 0, 0⟩
    match phaseQuads grid rng selFuel loopFuel s0 with
    | none => .timeout
    | some s1 =>
      match phasePairs grid rng selFuel loopFuel s1 with
      | none => .timeout
      | some s2 =>
        match phaseSingles grid rng selFuel loopFuel s2 with
        | none => .timeout
        | some s3 => .ok s3.masked

/-- Number of nonzero (given) cells among the 81 in-bounds cells. -/
def givenCount (g : Grid) : Nat :=
  ((Finset.range 81).filter (fun i => getCell g (i / 9) (i % 9) ≠ 0)).card

/-! ## Invariants of the masking loops -/

theorem get_random_cell_bounds {g : Grid} {rng : Nat → Nat} :
    ∀ {fuel i : Nat} {rc : Nat × Nat} {j : Nat},
      get_random_unmasked_cellF g rng fuel i = some (rc, j) → rc.1 < 9 ∧ rc.2 < 9 := by
  intro fuel
  induction fuel with
  | zero =>
    intro i rc j h
    cases h
  | succ n ih =>
    intro i rc j h
    unfold get_random_unmasked_cellF at h
    by_cases hnz : getCell g (randBelow rng i 9) (randBelow rng (i + 1) 9) ≠ 0
    · rw [if_pos hnz] at h
      injection h with h1
      have hrc : rc = (randBelow rng i 9, randBelow rng (i + 1) 9) :=
        (congrArg Prod.fst h1).symm
      rw [hrc]
      exact ⟨Nat.mod_lt _ (by omega), Nat.mod_lt _ (by omega)⟩
    · rw [if_neg hnz] at h
      exact ih h

theorem jitter_cell_bounds {g : Grid} {row col : Nat} {rng : Nat → Nat} :
    ∀ {fuel i : Nat} {rc : Nat × Nat} {j : Nat},
      get_jittery_mirrored_cellF g row col rng fuel i = some (rc, j) →
        rc.1 < 9 ∧ rc.2 < 9 := by
  intro fuel
  induction fuel with
  | zero =>
    intro i rc j h
    cases h
  | succ n ih =>
    intro i rc j h
    unfold get_jittery_mirrored_cellF at h
    set nr := ((9 - (row : Int) - 1 + ((randBelow rng i 7 : Int) - 3) + 9) % 9).toNat with hnr
    set nc := ((9 - (col : Int) - 1 + ((randBelow rng (i + 1) 7 : Int) - 3) + 9) % 9).toNat
      with hnc
    by_cases hnz : getCell g nr nc ≠ 0
    · rw [if_pos hnz] at h
      injection h with h1
      have hrc : rc = (nr, nc) := (congrArg Prod.fst h1).symm
      have hlt : ∀ x : Int, (x % 9).toNat < 9 := by
        intro x
        have h1 : 0 ≤ x % 9 := Int.emod_nonneg x (by omega)
        have h2 : x % 9 < 9 := Int.emod_lt_of_pos x (by omega)
        omega
      rw [hrc]
      exact ⟨hlt _, hlt _⟩
    · rw [if_neg hnz] at h
      exact ih h

theorem wfG_maskCells {g : Grid} (hw : wfG g) :
    ∀ cells : List (Nat × Nat), wfG (maskCells g cells) := by
  intro cells
  induction cells generalizing g with
  | nil => exact hw
  | cons x xs ih => exact ih (wfG_setCell hw (by omega) x.1 x.2)

theorem wfG_restoreCells {grid : Grid} (hwg : wfG grid) {g : Grid} (hw : wfG g) :
    ∀ cells : List (Nat × Nat), wfG (restoreCells grid g cells) := by
  intro cells
  induction cells generalizing g with
  | nil => exact hw
  | cons x xs ih => exact ih (wfG_setCell hw (getCell_le_9 hwg x.1 x.2) x.1 x.2)

theorem getCell_maskCells :
    ∀ (cells : List (Nat × Nat)) (g : Grid), wfG g →
      (∀ rc ∈ cells, rc.1 < 9 ∧ rc.2 < 9) → ∀ r c,
        getCell (maskCells g cells) r c = if (r, c) ∈ cells then 0 else getCell g r c := by
  intro cells
  induction cells with
  | nil =>
    intro g hw hb r c
    simp [maskCells]
  | cons x xs ih =>
    intro g hw hb r c
    obtain ⟨hx1, hx2⟩ := hb x (List.mem_cons_self x xs)
    have hstep : maskCells g (x :: xs) = maskCells (setCell g x.1 x.2 0) xs := rfl
    rw [hstep, ih (setCell g x.1 x.2 0) (wfG_setCell hw (by omega) x.1 x.2)
      (fun rc hrc => hb rc (List.mem_cons_of_mem x hrc)) r c]
    by_cases hxs : (r, c) ∈ xs
    · rw [if_pos hxs, if_pos (List.mem_cons_of_mem x hxs)]
    · rw [if_neg hxs, getCell_setCell hw hx1 hx2]
      by_cases hrx : (r, c) = x
      · rw [if_pos (by rw [Prod.ext_iff] at hrx; exact ⟨hrx.1, hrx.2⟩),
          if_pos (List.mem_cons.mpr (Or.inl hrx))]
      · rw [if_neg (by rw [Prod.ext_iff] at hrx; exact fun h => hrx ⟨h.1, h.2⟩),
          if_neg (by rw [List.mem_cons]; exact fun h => h.elim hrx hxs)]

theorem getCell_restoreCells {grid : Grid} (hwg : wfG grid) :
    ∀ (cells : List (Nat × Nat)) (g : Grid), wfG g →
      (∀ rc ∈ cells, rc.1 < 9 ∧ rc.2 < 9) → ∀ r c,
        getCell (restoreCells grid g cells) r c =
          if (r, c) ∈ cells then getCell grid r c else getCell g r c := by
  intro cells
  induction cells with
  | nil =>
    intro g hw hb r c
    simp [restoreCells]
  | cons x xs ih =>
    intro g hw hb r c
    obtain ⟨hx1, hx2⟩ := hb x (List.mem_cons_self x xs)
    have hstep : restoreCells grid g (x :: xs) =
        restoreCells grid (setCell g x.1 x.2 (getCell grid x.1 x.2)) xs := rfl
    rw [hstep, ih (setCell g x.1 x.2 (getCell grid x.1 x.2))
      (wfG_setCell hw (getCell_le_9 hwg x.1 x.2) x.1 x.2)
      (fun rc hrc => hb rc (List.mem_cons_of_mem x hrc)) r c]
    by_cases hxs : (r, c) ∈ xs
    · rw [if_pos hxs, if_pos (List.mem_cons_of_mem x hxs)]
    · rw [if_neg hxs, getCell_setCell hw hx1 hx2]
      by_cases hrx : (r, c) = x
      · rw [Prod.ext_iff] at hrx
        rw [if_pos ⟨hrx.1, hrx.2⟩, if_pos (List.mem_cons.mpr (Or.inl (Prod.ext hrx.1 hrx.2)))]
        have h1 : r = x.1 := hrx.1
        have h2 : c = x.2 := hrx.2
        rw [h1, h2]
      · rw [if_neg (by rw [Prod.ext_iff] at hrx; exact fun h => hrx ⟨h.1, h.2⟩),
          if_neg (by rw [List.mem_cons]; exact fun h => h.elim hrx hxs)]

theorem solution_countF_succ (fuel : Nat) (g : Grid) :
    solution_countF (fuel + 1) g =
      match get_first_empty_index g with
      | none => 1
      | some (r, c) => sumDigits (solution_countF fuel) r c g [1, 2, 3, 4, 5, 6, 7, 8, 9] :=
  rfl

theorem solution_count_of_full {g : Grid} (hw : wfG g) (hf : fullG g) :
    solution_count g = 1 := by
  have hnone : get_first_empty_index g = none := by
    unfold get_first_empty_index
    rw [List.findIdx?_eq_none_iff.mpr]
    intro x hx
    obtain ⟨i, hi, hix⟩ := List.mem_iff_getElem.mp hx
    rw [length_flatten_of_wfG hw] at hi
    have hgd : g.flatten.getD i 0 = getCell g (i / 9) (i % 9) :=
      flatten_getD (fun row hrow => (hw.2 row hrow).1) i
    rw [getD_eq_getElem (by rw [length_flatten_of_wfG hw]; omega) 0,
      List.get_eq_getElem, hix] at hgd
    have hnz := hf (i / 9) (by omega) (i % 9) (by omega)
    rw [← hgd] at hnz
    simpa using hnz
  show solution_countF (81 + 1) g = 1
  rw [solution_countF_succ, hnone]

/-- The loop invariant of `mask_grid`: the working grid is well-formed, each
of its cells is masked or untouched, and the puzzle keeps a unique solution. -/
def maskInv (grid s : Grid) : Prop :=
  wfG s ∧ agreesWith grid s ∧ solution_count s = 1

theorem completions_finite {g : Grid} (hw : wfG g) :
    {h : Grid | isCompletion g h}.Finite := by
  apply Set.Finite.subset (List.finite_toSet (solsWith get_first_empty_index 82 g))
  intro h hc
  refine solsWith_complete pickSpec_first 82 g hw ?_ h hc
  have := zerosG_le_81 g
  omega

theorem gridExtends_trans {a b c : Grid} (hab : gridExtends a b)
    (hbc : gridExtends b c) : gridExtends a c := by
  intro r hr c' hc' hnz
  rw [hbc r hr c' hc' (by rw [hab r hr c' hc' hnz]; exact hnz), hab r hr c' hc' hnz]

theorem numSolutions_le {g g2 : Grid} (hw : wfG g) (hext : gridExtends g g2) :
    numSolutions g2 ≤ numSolutions g := by
  unfold numSolutions
  refine Set.ncard_le_ncard ?_ (completions_finite hw)
  rintro h ⟨hwh, hfh, hvh, hexth⟩
  exact ⟨hwh, hfh, hvh, gridExtends_trans hext hexth⟩

theorem one_le_numSolutions {g h : Grid} (hw : wfG g) (hcomp : isCompletion g h) :
    1 ≤ numSolutions g := by
  unfold numSolutions
  have := (Set.ncard_pos (completions_finite hw)).mpr ⟨h, hcomp⟩
  omega

theorem gridExtends_of_agrees {grid s : Grid} (hag : agreesWith grid s) :
    gridExtends s grid := by
  intro r hr c hc hnz
  exact ((hag r hr c hc).resolve_left hnz).symm

/-- Any grid reachable from a state with a unique solution by restoring
some masked cells to their original values still has a unique solution. -/
theorem maskInv_of_extends {grid m m2 : Grid} (hwg : wfG grid) (hfg : fullG grid)
    (hvg : validG grid) (hinv : maskInv grid m) (hwm2 : wfG m2)
    (hag2 : agreesWith grid m2) (hext : gridExtends m m2) : maskInv grid m2 := by
  obtain ⟨hwm, hagm, hcm⟩ := hinv
  refine ⟨hwm2, hag2, ?_⟩
  have hvm : validG m := validG_of_agrees hwg hwm hagm hvg
  have hvm2 : validG m2 := validG_of_agrees hwg hwm2 hag2 hvg
  have hb2 : solution_count m2 = numSolutions m2 := solution_count_eq_numSolutions hwm2 hvm2
  have hb : solution_count m = numSolutions m := solution_count_eq_numSolutions hwm hvm
  have hle : numSolutions m2 ≤ numSolutions m := numSolutions_le hwm hext
  have hge : 1 ≤ numSolutions m2 :=
    one_le_numSolutions hwm2 ⟨hwg, hfg, hvg, gridExtends_of_agrees hag2⟩
  omega

theorem maskTrial_inv {grid : Grid} (hwg : wfG grid) (hfg : fullG grid)
    (hvg : validG grid) {s : MaskSt} (hinv : maskInv grid s.masked)
    {cells : List (Nat × Nat)} (hcells : ∀ rc ∈ cells, rc.1 < 9 ∧ rc.2 < 9)
    (k i' : Nat) : maskInv grid (maskTrial grid s cells k i').masked := by
  obtain ⟨hwm, hagm, hcm⟩ := hinv
  unfold maskTrial
  by_cases hone : solution_count (maskCells s.masked cells) = 1
  · rw [if_pos hone]
    refine ⟨wfG_maskCells hwm cells, ?_, hone⟩
    intro r hr c hc
    rw [getCell_maskCells cells s.masked hwm hcells r c]
    by_cases hm : (r, c) ∈ cells
    · rw [if_pos hm]
      exact Or.inl rfl
    · rw [if_neg hm]
      exact hagm r hr c hc
  · rw [if_neg hone]
    have hwm1 : wfG (maskCells s.masked cells) := wfG_maskCells hwm cells
    have hwm2 : wfG (restoreCells grid (maskCells s.masked cells) cells) :=
      wfG_restoreCells hwg hwm1 cells
    refine maskInv_of_extends hwg hfg hvg ⟨hwm, hagm, hcm⟩ hwm2 ?_ ?_
    · intro r hr c hc
      rw [getCell_restoreCells hwg cells _ hwm1 hcells r c]
      by_cases hm : (r, c) ∈ cells
      · rw [if_pos hm]
        exact Or.inr rfl
      · rw [if_neg hm, getCell_maskCells cells s.masked hwm hcells r c, if_neg hm]
        exact hagm r hr c hc
    · intro r hr c hc hnz
      rw [getCell_restoreCells hwg cells _ hwm1 hcells r c]
      by_cases hm : (r, c) ∈ cells
      · rw [if_pos hm]
        exact ((hagm r hr c hc).resolve_left hnz).symm
      · rw [if_neg hm, getCell_maskCells cells s.masked hwm hcells r c, if_neg hm]

theorem stepQuad_inv {grid : Grid} (hwg : wfG grid) (hfg : fullG grid)
    (hvg : validG grid) {rng : Nat → Nat} {selFuel : Nat} {s s' : MaskSt}
    (h : stepQuad grid rng selFuel s = some s') (hinv : maskInv grid s.masked) :
    maskInv grid s'.masked := by
  unfold stepQuad at h
  cases h1 : get_random_unmasked_cellF grid rng selFuel s.i with
  | none =>
    simp only [h1] at h
    cases h
  | some p1 =>
    obtain ⟨⟨c1r, c1c⟩, i1⟩ := p1
    simp only [h1] at h
    cases h2 : get_random_unmasked_cellF grid rng selFuel i1 with
    | none =>
      simp only [h2] at h
      cases h
    | some p2 =>
      obtain ⟨⟨c2r, c2c⟩, i2⟩ := p2
      simp only [h2] at h
      cases h3 : get_jittery_mirrored_cellF grid c1r c1c rng selFuel i2 with
      | none =>
        simp only [h3] at h
        cases h
      | some p3 =>
        obtain ⟨⟨c3r, c3c⟩, i3⟩ := p3
        simp only [h3] at h
        cases h4 : get_jittery_mirrored_cellF grid c2r c2c rng selFuel i3 with
        | none =>
          simp only [h4] at h
          cases h
        | some p4 =>
          obtain ⟨⟨c4r, c4c⟩, i4⟩ := p4
          simp only [h4, Option.some.injEq] at h
          subst h
          refine maskTrial_inv hwg hfg hvg hinv ?_ 4 i4
          intro rc hrc
          rcases List.mem_cons.mp hrc with rfl | hrc
          · exact get_random_cell_bounds h1
          rcases List.mem_cons.mp hrc with rfl | hrc
          · exact get_random_cell_bounds h2
          rcases List.mem_cons.mp hrc with rfl | hrc
          · exact jitter_cell_bounds h3
          rcases List.mem_cons.mp hrc with rfl | hrc
          · exact jitter_cell_bounds h4
          · cases hrc

theorem stepPair_inv {grid : Grid} (hwg : wfG grid) (hfg : fullG grid)
    (hvg : validG grid) {rng : Nat → Nat} {selFuel : Nat} {s s' : MaskSt}
    (h : stepPair grid rng selFuel s = some s') (hinv : maskInv grid s.masked) :
    maskInv grid s'.masked := by
  unfold stepPair at h
  cases h1 : get_random_unmasked_cellF grid rng selFuel s.i with
  | none =>
    simp only [h1] at h
    cases h
  | some p1 =>
    obtain ⟨⟨c1r, c1c⟩, i1⟩ := p1
    simp only [h1] at h
    cases h2 : get_jittery_mirrored_cellF grid c1r c1c rng selFuel i1 with
    | none =>
      simp only [h2] at h
      cases h
    | some p2 =>
      obtain ⟨⟨c2r, c2c⟩, i2⟩ := p2
      simp only [h2, Option.some.injEq] at h
      subst h
      refine maskTrial_inv hwg hfg hvg hinv ?_ 2 i2
      intro rc hrc
      rcases List.mem_cons.mp hrc with rfl | hrc
      · exact get_random_cell_bounds h1
      rcases List.mem_cons.mp hrc with rfl | hrc
      · exact jitter_cell_bounds h2
      · cases hrc

theorem stepSingle_inv {grid : Grid} (hwg : wfG grid) (hfg : fullG grid)
    (hvg : validG grid) {rng : Nat → Nat} {selFuel : Nat} {s s' : MaskSt}
    (h : stepSingle grid rng selFuel s = some s') (hinv : maskInv grid s.masked) :
    maskInv grid s'.masked := by
  unfold stepSingle at h
  cases h1 : get_random_unmasked_cellF grid rng selFuel s.i with
  | none =>
    simp only [h1] at h
    cases h
  | some p1 =>
    obtain ⟨⟨cr, cc⟩, i1⟩ := p1
    simp only [h1, Option.some.injEq] at h
    subst h
    refine maskTrial_inv hwg hfg hvg hinv ?_ 1 i1
    intro rc hrc
    rcases List.mem_cons.mp hrc with rfl | hrc
    · exact get_random_cell_bounds h1
    · cases hrc

theorem phaseQuads_inv {grid : Grid} (hwg : wfG grid) (hfg : fullG grid)
    (hvg : validG grid) {rng : Nat → Nat} {selFuel : Nat} :
    ∀ {fuel : Nat} {s s' : MaskSt}, phaseQuads grid rng selFuel fuel s = some s' →
      maskInv grid s.masked → maskInv grid s'.masked := by
  intro fuel
  induction fuel with
  | zero =>
    intro s s' h hinv
    unfold phaseQuads at h
    by_cases hcond : 4 ≤ s.mask_count ∧ s.removed < 20
    · rw [if_pos hcond] at h
      cases h
    · rw [if_neg hcond] at h
      injection h with h
      subst h
      exact hinv
  | succ n ih =>
    intro s s' h hinv
    unfold phaseQuads at h
    by_cases hcond : 4 ≤ s.mask_count ∧ s.removed < 20
    · rw [if_pos hcond] at h
      cases hstep : stepQuad grid rng selFuel s with
      | none => rw [hstep] at h; cases h
      | some s1 =>
        rw [hstep] at h
        exact ih h (stepQuad_inv hwg hfg hvg hstep hinv)
    · rw [if_neg hcond] at h
      injection h with h
      subst h
      exact hinv

theorem phasePairs_inv {grid : Grid} (hwg : wfG grid) (hfg : fullG grid)
    (hvg : validG grid) {rng : Nat → Nat} {selFuel : Nat} :
    ∀ {fuel : Nat} {s s' : MaskSt}, phasePairs grid rng selFuel fuel s = some s' →
      maskInv grid s.masked → maskInv grid s'.masked := by
  intro fuel
  induction fuel with
  | zero =>
    intro s s' h hinv
    unfold phasePairs at h
    by_cases hcond : 2 ≤ s.mask_count ∧ s.removed < 30
    · rw [if_pos hcond] at h
      cases h
    · rw [if_neg hcond] at h
      injection h with h
      subst h
      exact hinv
  | succ n ih =>
    intro s s' h hinv
    unfold phasePairs at h
    by_cases hcond : 2 ≤ s.mask_count ∧ s.removed < 30
    · rw [if_pos hcond] at h
      cases hstep : stepPair grid rng selFuel s with
      | none => rw [hstep] at h; cases h
      | some s1 =>
        rw [hstep] at h
        exact ih h (stepPair_inv hwg hfg hvg hstep hinv)
    · rw [if_neg hcond] at h
      injection h with h
      subst h
      exact hinv

theorem phaseSingles_inv {grid : Grid} (hwg : wfG grid) (hfg : fullG grid)
    (hvg : validG grid) {rng : Nat → Nat} {selFuel : Nat} :
    ∀ {fuel : Nat} {s s' : MaskSt}, phaseSingles grid rng selFuel fuel s = some s' →
      maskInv grid s.masked → maskInv grid s'.masked := by
  intro fuel
  induction fuel with
  | zero =>
    intro s s' h hinv
    unfold phaseSingles at h
    by_cases hcond : 1 ≤ s.mask_count
    · rw [if_pos hcond] at h
      cases h
    · rw [if_neg hcond] at h
      injection h with h
      subst h
      exact hinv
  | succ n ih =>
    intro s s' h hinv
    unfold phaseSingles at h
    by_cases hcond : 1 ≤ s.mask_count
    · rw [if_pos hcond] at h
      cases hstep : stepSingle grid rng selFuel s with
      | none => rw [hstep] at h; cases h
      | some s1 =>
        rw [hstep] at h
        exact ih h (stepSingle_inv hwg hfg hvg hstep hinv)
    · rw [if_neg hcond] at h
      injection h with h
      subst h
      exact hinv

/-- If `mask_grid` returns a puzzle, the masking invariant holds for it. -/
theorem mask_gridF_inv {grid : Grid} (hwg : wfG grid) (hfg : fullG grid)
    (hvg : validG grid) {given_count : Nat} {rng : Nat → Nat}
    {selFuel loopFuel : Nat} {p : Grid}
    (h : mask_gridF grid given_count rng selFuel loopFuel = MaskResult.ok p) :
    maskInv grid p := by
  unfold mask_gridF at h
  by_cases hgc : given_count < 17
  · rw [if_pos hgc] at h
    cases h
  · rw [if_neg hgc] at h
    cases h1 : phaseQuads grid rng selFuel loopFuel ⟨grid, 9 * 9 - given_count, 0, 0⟩ with
    | none =>
      simp only [h1] at h
      cases h
    | some s1 =>
      simp only [h1] at h
      cases h2 : phasePairs grid rng selFuel loopFuel s1 with
      | none =>
        simp only [h2] at h
        cases h
      | some s2 =>
        simp only [h2] at h
        cases h3 : phaseSingles grid rng selFuel loopFuel s2 with
        | none =>
          simp only [h3] at h
          cases h
        | some s3 =>
          simp only [h3, MaskResult.ok.injEq] at h
          subst h
          have hinv0 : maskInv grid grid :=
            ⟨hwg, fun r _ c _ => Or.inr rfl, solution_count_of_full hwg hfg⟩
          exact phaseSingles_inv hwg hfg hvg h3
            (phasePairs_inv hwg hfg hvg h2 (phaseQuads_inv hwg hfg hvg h1 hinv0))

/-! ## Concrete grids used as test inputs and counterexamples -/

/-- The literal example grid of the spec with a unique completion
(`test_single_solution_grid`). -/
def ex1 : Grid :=
  [[0, 1, 0, 0, 2, 0, 3, 0, 4],
   [0, 0, 2, 0, 0, 5, 6, 1, 0],
   [7, 0, 0, 0, 0, 3, 0, 8, 0],
   [5, 0, 6, 0, 4, 0, 0, 0, 1],
   [0, 0, 1, 0, 0, 0, 2, 0, 0],
   [9, 0, 0, 0, 7, 0, 4, 0, 5],
   [0, 4, 0, 6, 0, 0, 0, 0, 9],
   [0, 6, 7, 2, 0, 0, 5, 0, 0],
   [2, 0, 8, 0, 1, 0, 0, 3, 0]]

/-- The literal example grid of the spec with exactly five completions
(`test_many_solutions_grid`). -/
def ex2 : Grid :=
  [[0, 0, 0, 0, 2, 0, 3, 0, 4],
   [0, 0, 2, 0, 0, 5, 6, 1, 0],
   [7, 0, 0, 0, 0, 3, 0, 8, 0],
   [5, 0, 6, 0, 0, 0, 0, 0, 1],
   [0, 0, 1, 0, 0, 0, 2, 0, 0],
   [9, 0, 0, 0, 7, 0, 4, 0, 5],
   [0, 4, 0, 0, 0, 0, 0, 0, 9],
   [0, 6, 7, 0, 0, 0, 5, 0, 0],
   [2, 0, 8, 0, 1, 0, 0, 0, 0]]

/-- A concrete valid fully-filled grid (cyclic pattern). -/
def G0 : Grid :=
  [[1, 2, 3, 4, 5, 6, 7, 8, 9],
   [4, 5, 6, 7, 8, 9, 1, 2, 3],
   [7, 8, 9, 1, 2, 3, 4, 5, 6],
   [2, 3, 4, 5, 6, 7, 8, 9, 1],
   [5, 6, 7, 8, 9, 1, 2, 3, 4],
   [8, 9, 1, 2, 3, 4, 5, 6, 7],
   [3, 4, 5, 6, 7, 8, 9, 1, 2],
   [6, 7, 8, 9, 1, 2, 3, 4, 5],
   [9, 1, 2, 3, 4, 5, 6, 7, 8]]

/-- A random stream that makes every selector of the first quad trial land
on the centre cell `(4, 4)`. -/
def rngC : Nat → Nat := fun i => [4, 4, 4, 4, 3, 3, 3, 3].getD i 0

/-- `G0` with the centre cell masked: the puzzle the quad trial driven by
`rngC` produces. -/
def M0 : Grid := setCell G0 4 4 0

/-- A full grid violating the distinctness invariant everywhere. -/
def gAll5 : Grid := List.replicate 9 (List.replicate 9 5)

/-- Another full invalid grid. -/
def gAll7 : Grid := List.replicate 9 (List.replicate 9 7)

/-- An invalid partial grid: digit 1 appears twice in row 0. -/
def gDup : Grid :=
  [[1, 1, 0, 0, 0, 0, 0, 0, 0],
   [0, 0, 0, 0, 0, 0, 0, 0, 0],
   [0, 0, 0, 0, 0, 0, 0, 0, 0],
   [0, 0, 0, 0, 0, 0, 0, 0, 0],
   [0, 0, 0, 0, 0, 0, 0, 0, 0],
   [0, 0, 0, 0, 0, 0, 0, 0, 0],
   [0, 0, 0, 0, 0, 0, 0, 0, 0],
   [0, 0, 0, 0, 0, 0, 0, 0, 0],
   [0, 0, 0, 0, 0, 0, 0, 0, 0]]

/-! ## Claim C9 -/

/-- C9: on every grid with no zero entries — whether or not it satisfies the
row/column/box distinctness invariant — `solution_count` returns exactly 1:
the base case treats any complete grid as one solution without validating it. -/
theorem spec_C9_full_grid_counts_one (g : Grid)
    (hfull : ∀ row ∈ g, ∀ v ∈ row, v ≠ 0) : solution_count g = 1 := by
  have hnone : g.flatten.findIdx? (fun v => v = 0) = none := by
    rw [List.findIdx?_eq_none_iff]
    intro x hx
    obtain ⟨row, hrow, hxr⟩ := List.mem_flatten.mp hx
    simpa using hfull row hrow x hxr
  have hidx : get_first_empty_index g = none := by
    unfold get_first_empty_index
    rw [hnone]
  show solution_countF (81 + 1) g = 1
  rw [solution_countF_succ, hidx]

/-- Witness for C9, at a full grid that violates the validity invariant. -/
theorem spec_C9_witness :
    (∀ row ∈ gAll7, ∀ v ∈ row, v ≠ 0) ∧ solution_count gAll7 = 1 :=
  ⟨by decide, spec_C9_full_grid_counts_one gAll7 (by decide)⟩

/-! ## Claim C7 -/

/-- C7: for every grid and every `given_count ≤ 16`, `mask_grid` fails the
`assert!(given_count >= 17)` precondition check at the boundary, before any
cell removal is attempted. -/
theorem spec_C7_precondition_panics (grid : Grid) (given_count : Nat)
    (hgc : given_count ≤ 16) (rng : Nat → Nat) (selFuel loopFuel : Nat) :
    mask_gridF grid given_count rng selFuel loopFuel = MaskResult.panic := by
  unfold mask_gridF
  rw [if_pos (by omega)]

/-- Witness for C7 at `given_count = 16`. -/
theorem spec_C7_witness :
    (16 : Nat) ≤ 16 ∧ mask_gridF G0 16 rngC 1 1 = MaskResult.panic :=
  ⟨by decide, spec_C7_precondition_panics G0 16 (by decide) rngC 1 1⟩

/-! ## Claim C8 -/

/-- C8: `mask_grid(filled, 81)` requests no removals: all three phase loops
exit immediately and the clone of the input grid is returned unchanged,
for every random stream and any fuel. -/
theorem spec_C8_mask_81_identity (grid : Grid) (rng : Nat → Nat)
    (selFuel loopFuel : Nat) :
    mask_gridF grid 81 rng selFuel loopFuel = MaskResult.ok grid := by
  have hq : phaseQuads grid rng selFuel loopFuel ⟨grid, 9 * 9 - 81, 0, 0⟩ =
      some ⟨grid, 9 * 9 - 81, 0, 0⟩ := by
    cases loopFuel with
    | zero =>
      unfold phaseQuads
      rw [if_neg (by simp)]
    | succ n =>
      unfold phaseQuads
      rw [if_neg (by simp)]
  have hp : phasePairs grid rng selFuel loopFuel ⟨grid, 9 * 9 - 81, 0, 0⟩ =
      some ⟨grid, 9 * 9 - 81, 0, 0⟩ := by
    cases loopFuel with
    | zero =>
      unfold phasePairs
      rw [if_neg (by simp)]
    | succ n =>
      unfold phasePairs
      rw [if_neg (by simp)]
  have hs : phaseSingles grid rng selFuel loopFuel ⟨grid, 9 * 9 - 81, 0, 0⟩ =
      some ⟨grid, 9 * 9 - 81, 0, 0⟩ := by
    cases loopFuel with
    | zero =>
      unfold phaseSingles
      rw [if_neg (by simp)]
    | succ n =>
      unfold phaseSingles
      rw [if_neg (by simp)]
  unfold mask_gridF
  rw [if_neg (by omega)]
  simp only [hq, hp, hs]

/-! ## Claim C2 (code bug: removals can collide, leaving extra givens) -/

/-- C2 failing run: with `given_count = 77` the stream `rngC` makes the one
quad trial pick the centre cell four times; the trial masks a single cell
yet books four removals, so the returned puzzle has 80 givens, not 77.
This evaluates the masking code at that input. -/
theorem spec_C2_collision_run :
    mask_gridF G0 77 rngC 1 2 = MaskResult.ok M0 ∧ givenCount M0 = 80 ∧
      givenCount M0 ≠ 77 := by
  refine ⟨by decide, by decide, by decide⟩

/-! ## Claim C1 -/

/-- C1: for every valid fully-filled grid and every `given_count ≥ 17`, a
terminating run of `mask_grid` (any random stream, any fuel) returns a
puzzle on which `solution_count` is exactly 1. -/
theorem spec_C1_mask_keeps_unique_solution {grid : Grid} (hwg : wfG grid)
    (hfg : fullG grid) (hvg : validG grid) {given_count : Nat}
    (hgc : 17 ≤ given_count) {rng : Nat → Nat} {selFuel loopFuel : Nat} {p : Grid}
    (h : mask_gridF grid given_count rng selFuel loopFuel = MaskResult.ok p) :
    solution_count p = 1 :=
  (mask_gridF_inv hwg hfg hvg h).2.2

/-- Witness for C1 on the concrete run of `mask_grid(G0, 77)` driven by
`rngC`. -/
theorem spec_C1_witness :
    (wfG G0 ∧ fullG G0 ∧ validG G0 ∧ 17 ≤ 77 ∧
      mask_gridF G0 77 rngC 1 2 = MaskResult.ok M0) ∧ solution_count M0 = 1 :=
  ⟨⟨by decide, by decide, by decide, by decide, by decide⟩,
    @spec_C1_mask_keeps_unique_solution G0 (by decide) (by decide) (by decide)
      77 (by decide) rngC 1 2 M0 (by decide)⟩

/-! ## Claim C3 -/

/-- C3: for every valid fully-filled grid and `given_count ≥ 17`, every
nonzero cell of a returned puzzle equals the corresponding cell of the
input grid (each working cell stays masked-or-untouched through every
commit and restore of all three phases, which is the invariant
`mask_gridF_inv` carries). -/
theorem spec_C3_nonzero_cells_agree {grid : Grid} (hwg : wfG grid)
    (hfg : fullG grid) (hvg : validG grid) {given_count : Nat}
    (hgc : 17 ≤ given_count) {rng : Nat → Nat} {selFuel loopFuel : Nat} {p : Grid}
    (h : mask_gridF grid given_count rng selFuel loopFuel = MaskResult.ok p) :
    ∀ r < 9, ∀ c < 9, getCell p r c ≠ 0 → getCell p r c = getCell grid r c := by
  intro r hr c hc hnz
  exact ((mask_gridF_inv hwg hfg hvg h).2.1 r hr c hc).resolve_left hnz

/-- Witness for C3 on the same concrete run. -/
theorem spec_C3_witness :
    (wfG G0 ∧ fullG G0 ∧ validG G0 ∧ 17 ≤ 77 ∧
      mask_gridF G0 77 rngC 1 2 = MaskResult.ok M0 ∧ 0 < 9 ∧ getCell M0 0 0 ≠ 0) ∧
      getCell M0 0 0 = getCell G0 0 0 :=
  ⟨⟨by decide, by decide, by decide, by decide, by decide, by decide, by decide⟩,
    @spec_C3_nonzero_cells_agree G0 (by decide) (by decide) (by decide)
      77 (by decide) rngC 1 2 M0 (by decide) 0 (by decide) 0 (by decide) (by decide)⟩

/-! ## Claim C5 (corrected: the stated iff additionally needs the grid valid) -/

/-- C5 counterexample: on a grid whose row 0 already contains a duplicate,
`is_safe_placement` returns `false` for the value 5 even though 5 appears
nowhere in the row, the column or the box, so the claimed iff fails as
stated. -/
theorem spec_C5_counterexample :
    is_safe_placement gDup 0 2 5 = false ∧ (5 : Nat) ∉ rowCells gDup 0 ∧
      (5 : Nat) ∉ colCells gDup 2 ∧ (5 : Nat) ∉ boxCells gDup 0 2 := by
  refine ⟨by decide, by decide, by decide, by decide⟩

/-- C5 (amended): on a well-formed grid satisfying the validity invariant,
`is_safe_placement(grid, r, c, v)` returns `false` iff `v` already appears
among the nonzero cells of row `r`, of column `c`, or of the box containing
`(r, c)`, and returns `true` otherwise. -/
theorem spec_C5_safe_iff_on_valid {g : Grid} (hw : wfG g) (hv : validG g)
    {r c v : Nat} (hr : r < 9) (hc : c < 9) (hv1 : 1 ≤ v) (hv9 : v ≤ 9) :
    is_safe_placement g r c v = false ↔
      v ∈ rowCells g r ∨ v ∈ colCells g c ∨ v ∈ boxCells g r c := by
  have hiff := is_safe_placement_iff g r c hv1
  constructor
  · intro hfalse
    by_contra hmem
    push_neg at hmem
    have : is_safe_placement g r c v = true :=
      hiff.mpr ⟨⟨hv.1 r hr, hmem.1⟩, ⟨hv.2.1 c hc, hmem.2.1⟩,
        hv.2.2 r hr c hc, hmem.2.2⟩
    rw [this] at hfalse
    cases hfalse
  · intro hmem
    cases hsafe : is_safe_placement g r c v with
    | false => rfl
    | true =>
      obtain ⟨⟨-, hnr⟩, ⟨-, hnc⟩, -, hnb⟩ := hiff.mp hsafe
      rcases hmem with h | h | h
      · exact absurd h hnr
      · exact absurd h hnc
      · exact absurd h hnb

/-- Witness for the amended C5, on the first spec example grid. -/
theorem spec_C5_witness :
    (wfG ex1 ∧ validG ex1 ∧ 0 < 9 ∧ 1 ≤ 1 ∧ 1 ≤ 9) ∧
      (is_safe_placement ex1 0 0 1 = false ↔
        (1 : Nat) ∈ rowCells ex1 0 ∨ (1 : Nat) ∈ colCells ex1 0 ∨
          (1 : Nat) ∈ boxCells ex1 0 0) :=
  ⟨⟨by decide, by decide, by decide, by decide, by decide⟩,
    spec_C5_safe_iff_on_valid (by decide) (by decide) (by decide) (by decide)
      (by decide) (by decide)⟩

/-! ## Claim C10 -/

/-- C10: if the nonzero entries of row `r`, of column `c`, or of the box
containing `(r, c)` already contain a duplicated digit, then
`is_safe_placement` returns `false` even when `v` itself appears nowhere
among those entries. -/
theorem spec_C10_duplicate_forces_false {g : Grid} {r c v : Nat} (hv1 : 1 ≤ v)
    (hdup : ¬nodupNZ (rowCells g r) ∨ ¬nodupNZ (colCells g c) ∨
      ¬nodupNZ (boxCells g r c))
    (habsent : v ∉ rowCells g r ∧ v ∉ colCells g c ∧ v ∉ boxCells g r c) :
    is_safe_placement g r c v = false := by
  cases hsafe : is_safe_placement g r c v with
  | false => rfl
  | true =>
    obtain ⟨⟨hnr, -⟩, ⟨hnc, -⟩, hnb, -⟩ := (is_safe_placement_iff g r c hv1).mp hsafe
    rcases hdup with h | h | h
    · exact absurd hnr h
    · exact absurd hnc h
    · exact absurd hnb h

/-- Witness for C10 on the duplicated-row grid. -/
theorem spec_C10_witness :
    (1 ≤ 5 ∧ ¬nodupNZ (rowCells gDup 0) ∧
      ((5 : Nat) ∉ rowCells gDup 0 ∧ (5 : Nat) ∉ colCells gDup 2 ∧
        (5 : Nat) ∉ boxCells gDup 0 2)) ∧
      is_safe_placement gDup 0 2 5 = false :=
  ⟨⟨by decide, by decide, by decide, by decide, by decide⟩,
    spec_C10_duplicate_forces_false (by decide)
      (Or.inl (by decide)) ⟨by decide, by decide, by decide⟩⟩

/-! ## Claim C6 (corrected: the semantic reading needs a valid input grid) -/

/-- C6 counterexample: on a full grid violating the validity invariant,
`solution_count` returns 1 although no FilledGrid at all is consistent with
it, so "returns the exact number of distinct FilledGrids consistent with
the partial grid" fails for arbitrary grids. -/
theorem spec_C6_counterexample :
    solution_count gAll5 = 1 ∧ numSolutions gAll5 = 0 := by
  constructor
  · decide
  · have hempty : {h : Grid | isCompletion gAll5 h} = ∅ := by
      ext h
      simp only [Set.mem_setOf_eq, Set.mem_empty_iff_false, iff_false]
      rintro ⟨hwh, hfh, hvh, hext⟩
      have heq : h = gAll5 := by
        refine grid_eq_of_getCell hwh (by decide) ?_
        intro r hr c hc
        exact hext r hr c hc ((show fullG gAll5 by decide) r hr c hc)
      rw [heq] at hvh
      exact absurd hvh (by decide)
    rw [numSolutions, hempty, Set.ncard_empty]

/-! ## The filled-grid generator (`generate_random_filled_grid` / `fill_grid`) -/

/-- One seeding write loop: `grid[i/3 + offset][i%3 + offset] = digits[i]`
for each `(i, digit)` of the enumerated shuffled digit list. -/
def writeBox (g : Grid) (offset : Nat) (digits : List Nat) : Grid :=
  digits.enum.foldl (fun g' p => setCell g' (p.1 / 3 + offset) (p.1 % 3 + offset) p.2) g

/-- The seeding of `generate_random_filled_grid`: an all-zero 9×9 grid with
the three diagonal boxes (offsets 0, 3, 6) written in order. -/
def seedBoxes (p0 p3 p6 : List Nat) : Grid :=
  writeBox (writeBox (writeBox (List.replicate 9 (List.replicate 9 0)) 0 p0) 3 p3) 6 p6

/-- The digit loop of `fill_grid`: try each digit in order; on a safe digit
recurse on a copy with the digit placed, propagating the first success and
threading the random-stream position through failed subtrees. -/
def tryDigits (rec : Nat → Grid → Option Grid × Nat) (r c : Nat) (g : Grid) :
    List Nat → Nat → Option Grid × Nat
  | [], k => (none, k)
  | d :: rest, k =>
    if is_safe_placement g r c d then
      match rec k (setCell g r c d) with
      | (some g2, k2) => (some g2, k2)
      | (none, k2) => tryDigits rec r c g rest k2
    else tryDigits rec r c g rest k

/-- `fill_grid`, with fuel (one unit per recursion depth); `ds k` is the
shuffled digit list the `k`-th call draws from the random source. -/
def fill_gridF (ds : Nat → List Nat) : Nat → Nat → Grid → Option Grid × Nat
  | 0, k, _ => (none, k)
  | fuel + 1, k, g =>
    match get_first_empty_index g with
    | none => (some g, k)
    | some (r, c) => tryDigits (fill_gridF ds fuel) r c g (ds k) (k + 1)

/-- `generate_random_filled_grid`: seed the three diagonal boxes with
shuffled digit lists, then backtrack-fill. `none` covers both the
`panic!("Unable to fill grid")` branch and fuel exhaustion. -/
def generate_random_filled_gridF (p0 p3 p6 : List Nat) (ds : Nat → List Nat)
    (fuel : Nat) : Option Grid :=
  (fill_gridF ds fuel 0 (seedBoxes p0 p3 p6)).1

theorem tryDigits_sound {rec : Nat → Grid → Option Grid × Nat}
    (hrec : ∀ k g g2 k2, wfG g → rec k g = (some g2, k2) →
      wfG g2 ∧ fullG g2 ∧ gridExtends g g2 ∧ (validG g → validG g2))
    {r c : Nat} (hr : r < 9) (hc : c < 9) {g : Grid} (hw : wfG g)
    (hz : getCell g r c = 0) :
    ∀ l : List Nat, (∀ d ∈ l, 1 ≤ d ∧ d ≤ 9) → ∀ k g2 k2,
      tryDigits rec r c g l k = (some g2, k2) →
      wfG g2 ∧ fullG g2 ∧ gridExtends g g2 ∧ (validG g → validG g2) := by
  intro l
  induction l with
  | nil =>
    intro hb k g2 k2 h
    simp [tryDigits] at h
  | cons d rest ih =>
    intro hb k g2 k2 h
    obtain ⟨hd1, hd9⟩ := hb d (List.mem_cons_self d rest)
    unfold tryDigits at h
    by_cases hs : is_safe_placement g r c d = true
    · rw [if_pos hs] at h
      cases hrc : rec k (setCell g r c d) with
      | mk og k' =>
        cases og with
        | some gg =>
          rw [hrc] at h
          injection h with h1 h2
          injection h1 with h1
          subst h1
          obtain ⟨hwg2, hfg2, hext2, hv2⟩ :=
            hrec k (setCell g r c d) gg k' (wfG_setCell hw hd9 r c) hrc
          refine ⟨hwg2, hfg2, ?_, ?_⟩
          · intro r' hr' c' hc' hnz
            have hne : ¬(r' = r ∧ c' = c) := by
              rintro ⟨rfl, rfl⟩
              exact hnz hz
            have := hext2 r' hr' c' hc'
              (by rw [getCell_setCell hw hr hc, if_neg hne]; exact hnz)
            rw [getCell_setCell hw hr hc, if_neg hne] at this
            exact this
          · intro hvg
            apply hv2
            have hiff := (is_safe_placement_iff g r c hd1).mp hs
            exact validG_setCell hw hr hc hd9 hiff.1.2 hiff.2.1.2 hiff.2.2.2 hvg
        | none =>
          rw [hrc] at h
          exact ih (fun d' hd' => hb d' (List.mem_cons_of_mem d hd')) k' g2 k2 h
    · rw [if_neg hs] at h
      exact ih (fun d' hd' => hb d' (List.mem_cons_of_mem d hd')) k g2 k2 h

theorem fill_gridF_sound {ds : Nat → List Nat}
    (hds : ∀ k, ∀ d ∈ ds k, 1 ≤ d ∧ d ≤ 9) :
    ∀ fuel k (g : Grid) g2 k2, wfG g → fill_gridF ds fuel k g = (some g2, k2) →
      wfG g2 ∧ fullG g2 ∧ gridExtends g g2 ∧ (validG g → validG g2) := by
  intro fuel
  induction fuel with
  | zero =>
    intro k g g2 k2 hw h
    simp [fill_gridF] at h
  | succ n ih =>
    intro k g g2 k2 hw h
    unfold fill_gridF at h
    cases hp : get_first_empty_index g with
    | none =>
      rw [hp] at h
      injection h with h1 h2
      injection h1 with h1
      subst h1
      exact ⟨hw, (pickSpec_first g hw).2 hp, fun r _ c _ _ => rfl, id⟩
    | some rc =>
      obtain ⟨r, c⟩ := rc
      rw [hp] at h
      obtain ⟨hr, hc, hz⟩ := (pickSpec_first g hw).1 r c hp
      exact tryDigits_sound (fun k' g' g2' k2' hw' h' => ih k' g' g2' k2' hw' h')
        hr hc hw hz (ds k) (hds k) (k + 1) g2 k2 h

/-! ## The seeded grid is well-formed and valid -/

theorem nodupNZ_of_nodup {l : List Nat} (h : l.Nodup) : nodupNZ l :=
  (List.filter_sublist l).nodup h

theorem nodupNZ_append_zeros {l z : List Nat} (hz : ∀ x ∈ z, x = 0) :
    nodupNZ (l ++ z) ↔ nodupNZ l := by
  unfold nodupNZ
  have hfz : z.filter (fun v => v ≠ 0) = [] :=
    List.filter_eq_nil_iff.mpr (fun a ha => by simpa using hz a ha)
  rw [List.filter_append, hfz, List.append_nil]

theorem nodupNZ_zeros_append {l z : List Nat} (hz : ∀ x ∈ z, x = 0) :
    nodupNZ (z ++ l) ↔ nodupNZ l := by
  unfold nodupNZ
  have hfz : z.filter (fun v => v ≠ 0) = [] :=
    List.filter_eq_nil_iff.mpr (fun a ha => by simpa using hz a ha)
  rw [List.filter_append, hfz, List.nil_append]

theorem nodupNZ_triple {x y z : Nat} (hxy : x ≠ y) (hxz : x ≠ z) (hyz : y ≠ z) :
    nodupNZ [x, y, z] :=
  nodupNZ_of_nodup (by simp [hxy, hxz, hyz])

theorem exists_nine {α : Type} {l : List α} (h : l.length = 9) :
    ∃ x1 x2 x3 x4 x5 x6 x7 x8 x9, l = [x1, x2, x3, x4, x5, x6, x7, x8, x9] := by
  cases l with
  | nil => simp at h
  | cons x1 t1 =>
  cases t1 with
  | nil => simp at h
  | cons x2 t2 =>
  cases t2 with
  | nil => simp at h
  | cons x3 t3 =>
  cases t3 with
  | nil => simp at h
  | cons x4 t4 =>
  cases t4 with
  | nil => simp at h
  | cons x5 t5 =>
  cases t5 with
  | nil => simp at h
  | cons x6 t6 =>
  cases t6 with
  | nil => simp at h
  | cons x7 t7 =>
  cases t7 with
  | nil => simp at h
  | cons x8 t8 =>
  cases t8 with
  | nil => simp at h
  | cons x9 t9 =>
  cases t9 with
  | nil => exact ⟨x1, x2, x3, x4, x5, x6, x7, x8, x9, rfl⟩
  | cons x10 t10 => simp at h


set_option maxHeartbeats 1000000 in
theorem seedBoxes_wf_valid {p0 p3 p6 : List Nat}
    (h0 : p0.Perm [1, 2, 3, 4, 5, 6, 7, 8, 9])
    (h3 : p3.Perm [1, 2, 3, 4, 5, 6, 7, 8, 9])
    (h6 : p6.Perm [1, 2, 3, 4, 5, 6, 7, 8, 9]) :
    wfG (seedBoxes p0 p3 p6) ∧ validG (seedBoxes p0 p3 p6) := by
  obtain ⟨a1, a2, a3, a4, a5, a6, a7, a8, a9, rfl⟩ :=
    exists_nine (by simpa using h0.length_eq)
  obtain ⟨b1, b2, b3, b4, b5, b6, b7, b8, b9, rfl⟩ :=
    exists_nine (by simpa using h3.length_eq)
  obtain ⟨c1, c2, c3, c4, c5, c6, c7, c8, c9, rfl⟩ :=
    exists_nine (by simpa using h6.length_eq)
  have hseed : seedBoxes [a1, a2, a3, a4, a5, a6, a7, a8, a9]
      [b1, b2, b3, b4, b5, b6, b7, b8, b9] [c1, c2, c3, c4, c5, c6, c7, c8, c9] =
      [[a1, a2, a3, 0, 0, 0, 0, 0, 0],
       [a4, a5, a6, 0, 0, 0, 0, 0, 0],
       [a7, a8, a9, 0, 0, 0, 0, 0, 0],
       [0, 0, 0, b1, b2, b3, 0, 0, 0],
       [0, 0, 0, b4, b5, b6, 0, 0, 0],
       [0, 0, 0, b7, b8, b9, 0, 0, 0],
       [0, 0, 0, 0, 0, 0, c1, c2, c3],
       [0, 0, 0, 0, 0, 0, c4, c5, c6],
       [0, 0, 0, 0, 0, 0, c7, c8, c9]] := by
    simp [seedBoxes, writeBox, List.enum, List.enumFrom, setCell, List.replicate]
  rw [hseed]
  have hA9 : [a1, a2, a3, a4, a5, a6, a7, a8, a9].Nodup := h0.nodup_iff.mpr (by decide)
  have hB9 : [b1, b2, b3, b4, b5, b6, b7, b8, b9].Nodup := h3.nodup_iff.mpr (by decide)
  have hC9 : [c1, c2, c3, c4, c5, c6, c7, c8, c9].Nodup := h6.nodup_iff.mpr (by decide)
  have hAm : ∀ x ∈ [a1, a2, a3, a4, a5, a6, a7, a8, a9], 1 ≤ x ∧ x ≤ 9 := by
    intro x hx
    have := h0.mem_iff.mp hx
    simp at this
    omega
  have hBm : ∀ x ∈ [b1, b2, b3, b4, b5, b6, b7, b8, b9], 1 ≤ x ∧ x ≤ 9 := by
    intro x hx
    have := h3.mem_iff.mp hx
    simp at this
    omega
  have hCm : ∀ x ∈ [c1, c2, c3, c4, c5, c6, c7, c8, c9], 1 ≤ x ∧ x ≤ 9 := by
    intro x hx
    have := h6.mem_iff.mp hx
    simp at this
    omega
  have hA : ∀ i j, i < j → j < 9 →
      [a1, a2, a3, a4, a5, a6, a7, a8, a9][i]? ≠
        [a1, a2, a3, a4, a5, a6, a7, a8, a9][j]? :=
    fun i j hij hj => List.nodup_iff_getElem?_ne_getElem?.mp hA9 i j hij (by simpa using hj)
  have hB : ∀ i j, i < j → j < 9 →
      [b1, b2, b3, b4, b5, b6, b7, b8, b9][i]? ≠
        [b1, b2, b3, b4, b5, b6, b7, b8, b9][j]? :=
    fun i j hij hj => List.nodup_iff_getElem?_ne_getElem?.mp hB9 i j hij (by simpa using hj)
  have hC : ∀ i j, i < j → j < 9 →
      [c1, c2, c3, c4, c5, c6, c7, c8, c9][i]? ≠
        [c1, c2, c3, c4, c5, c6, c7, c8, c9][j]? :=
    fun i j hij hj => List.nodup_iff_getElem?_ne_getElem?.mp hC9 i j hij (by simpa using hj)
  have hub_a1 : a1 ≤ 9 := (hAm a1 (by simp)).2
  have hub_a2 : a2 ≤ 9 := (hAm a2 (by simp)).2
  have hub_a3 : a3 ≤ 9 := (hAm a3 (by simp)).2
  have hub_a4 : a4 ≤ 9 := (hAm a4 (by simp)).2
  have hub_a5 : a5 ≤ 9 := (hAm a5 (by simp)).2
  have hub_a6 : a6 ≤ 9 := (hAm a6 (by simp)).2
  have hub_a7 : a7 ≤ 9 := (hAm a7 (by simp)).2
  have hub_a8 : a8 ≤ 9 := (hAm a8 (by simp)).2
  have hub_a9 : a9 ≤ 9 := (hAm a9 (by simp)).2
  have hub_b1 : b1 ≤ 9 := (hBm b1 (by simp)).2
  have hub_b2 : b2 ≤ 9 := (hBm b2 (by simp)).2
  have hub_b3 : b3 ≤ 9 := (hBm b3 (by simp)).2
  have hub_b4 : b4 ≤ 9 := (hBm b4 (by simp)).2
  have hub_b5 : b5 ≤ 9 := (hBm b5 (by simp)).2
  have hub_b6 : b6 ≤ 9 := (hBm b6 (by simp)).2
  have hub_b7 : b7 ≤ 9 := (hBm b7 (by simp)).2
  have hub_b8 : b8 ≤ 9 := (hBm b8 (by simp)).2
  have hub_b9 : b9 ≤ 9 := (hBm b9 (by simp)).2
  have hub_c1 : c1 ≤ 9 := (hCm c1 (by simp)).2
  have hub_c2 : c2 ≤ 9 := (hCm c2 (by simp)).2
  have hub_c3 : c3 ≤ 9 := (hCm c3 (by simp)).2
  have hub_c4 : c4 ≤ 9 := (hCm c4 (by simp)).2
  have hub_c5 : c5 ≤ 9 := (hCm c5 (by simp)).2
  have hub_c6 : c6 ≤ 9 := (hCm c6 (by simp)).2
  have hub_c7 : c7 ≤ 9 := (hCm c7 (by simp)).2
  have hub_c8 : c8 ≤ 9 := (hCm c8 (by simp)).2
  have hub_c9 : c9 ≤ 9 := (hCm c9 (by simp)).2
  have hz9 : nodupNZ [0, 0, 0, 0, 0, 0, 0, 0, 0] := by decide
  refine ⟨⟨rfl, ?_⟩, ?_, ?_, ?_⟩
  · intro row hrow
    simp only [List.mem_cons, List.not_mem_nil, or_false] at hrow
    rcases hrow with rfl | rfl | rfl | rfl | rfl | rfl | rfl | rfl | rfl
    all_goals refine ⟨rfl, ?_⟩
    all_goals intro v hv
    all_goals simp only [List.mem_cons, List.not_mem_nil, or_false] at hv
    all_goals rcases hv with rfl | rfl | rfl | rfl | rfl | rfl | rfl | rfl | rfl
    all_goals first
      | exact Nat.zero_le 9
      | exact hub_a1
      | exact hub_a2
      | exact hub_a3
      | exact hub_a4
      | exact hub_a5
      | exact hub_a6
      | exact hub_a7
      | exact hub_a8
      | exact hub_a9
      | exact hub_b1
      | exact hub_b2
      | exact hub_b3
      | exact hub_b4
      | exact hub_b5
      | exact hub_b6
      | exact hub_b7
      | exact hub_b8
      | exact hub_b9
      | exact hub_c1
      | exact hub_c2
      | exact hub_c3
      | exact hub_c4
      | exact hub_c5
      | exact hub_c6
      | exact hub_c7
      | exact hub_c8
      | exact hub_c9
  · intro r hr
    interval_cases r
    · exact (@nodupNZ_append_zeros [a1, a2, a3] [0, 0, 0, 0, 0, 0] (by decide)).mpr (nodupNZ_triple
        (by simpa using hA 0 1 (by omega) (by omega))
        (by simpa using hA 0 2 (by omega) (by omega))
        (by simpa using hA 1 2 (by omega) (by omega)))
    · exact (@nodupNZ_append_zeros [a4, a5, a6] [0, 0, 0, 0, 0, 0] (by decide)).mpr (nodupNZ_triple
        (by simpa using hA 3 4 (by omega) (by omega))
        (by simpa using hA 3 5 (by omega) (by omega))
        (by simpa using hA 4 5 (by omega) (by omega)))
    · exact (@nodupNZ_append_zeros [a7, a8, a9] [0, 0, 0, 0, 0, 0] (by decide)).mpr (nodupNZ_triple
        (by simpa using hA 6 7 (by omega) (by omega))
        (by simpa using hA 6 8 (by omega) (by omega))
        (by simpa using hA 7 8 (by omega) (by omega)))
    · exact (@nodupNZ_zeros_append ([b1, b2, b3] ++ [0, 0, 0]) [0, 0, 0] (by decide)).mpr ((@nodupNZ_append_zeros [b1, b2, b3] [0, 0, 0] (by decide)).mpr
        (nodupNZ_triple
          (by simpa using hB 0 1 (by omega) (by omega))
          (by simpa using hB 0 2 (by omega) (by omega))
          (by simpa using hB 1 2 (by omega) (by omega))))
    · exact (@nodupNZ_zeros_append ([b4, b5, b6] ++ [0, 0, 0]) [0, 0, 0] (by decide)).mpr ((@nodupNZ_append_zeros [b4, b5, b6] [0, 0, 0] (by decide)).mpr
        (nodupNZ_triple
          (by simpa using hB 3 4 (by omega) (by omega))
          (by simpa using hB 3 5 (by omega) (by omega))
          (by simpa using hB 4 5 (by omega) (by omega))))
    · exact (@nodupNZ_zeros_append ([b7, b8, b9] ++ [0, 0, 0]) [0, 0, 0] (by decide)).mpr ((@nodupNZ_append_zeros [b7, b8, b9] [0, 0, 0] (by decide)).mpr
        (nodupNZ_triple
          (by simpa using hB 6 7 (by omega) (by omega))
          (by simpa using hB 6 8 (by omega) (by omega))
          (by simpa using hB 7 8 (by omega) (by omega))))
    · exact (@nodupNZ_zeros_append ([c1, c2, c3]) [0, 0, 0, 0, 0, 0] (by decide)).mpr (nodupNZ_triple
        (by simpa using hC 0 1 (by omega) (by omega))
        (by simpa using hC 0 2 (by omega) (by omega))
        (by simpa using hC 1 2 (by omega) (by omega)))
    · exact (@nodupNZ_zeros_append ([c4, c5, c6]) [0, 0, 0, 0, 0, 0] (by decide)).mpr (nodupNZ_triple
        (by simpa using hC 3 4 (by omega) (by omega))
        (by simpa using hC 3 5 (by omega) (by omega))
        (by simpa using hC 4 5 (by omega) (by omega)))
    · exact (@nodupNZ_zeros_append ([c7, c8, c9]) [0, 0, 0, 0, 0, 0] (by decide)).mpr (nodupNZ_triple
        (by simpa using hC 6 7 (by omega) (by omega))
        (by simpa using hC 6 8 (by omega) (by omega))
        (by simpa using hC 7 8 (by omega) (by omega)))
  · intro c hc
    interval_cases c
    · exact (@nodupNZ_append_zeros [a1, a4, a7] [0, 0, 0, 0, 0, 0] (by decide)).mpr (nodupNZ_triple
        (by simpa using hA 0 3 (by omega) (by omega))
        (by simpa using hA 0 6 (by omega) (by omega))
        (by simpa using hA 3 6 (by omega) (by omega)))
    · exact (@nodupNZ_append_zeros [a2, a5, a8] [0, 0, 0, 0, 0, 0] (by decide)).mpr (nodupNZ_triple
        (by simpa using hA 1 4 (by omega) (by omega))
        (by simpa using hA 1 7 (by omega) (by omega))
        (by simpa using hA 4 7 (by omega) (by omega)))
    · exact (@nodupNZ_append_zeros [a3, a6, a9] [0, 0, 0, 0, 0, 0] (by decide)).mpr (nodupNZ_triple
        (by simpa using hA 2 5 (by omega) (by omega))
        (by simpa using hA 2 8 (by omega) (by omega))
        (by simpa using hA 5 8 (by omega) (by omega)))
    · exact (@nodupNZ_zeros_append ([b1, b4, b7] ++ [0, 0, 0]) [0, 0, 0] (by decide)).mpr ((@nodupNZ_append_zeros [b1, b4, b7] [0, 0, 0] (by decide)).mpr
        (nodupNZ_triple
          (by simpa using hB 0 3 (by omega) (by omega))
          (by simpa using hB 0 6 (by omega) (by omega))
          (by simpa using hB 3 6 (by omega) (by omega))))
    · exact (@nodupNZ_zeros_append ([b2, b5, b8] ++ [0, 0, 0]) [0, 0, 0] (by decide)).mpr ((@nodupNZ_append_zeros [b2, b5, b8] [0, 0, 0] (by decide)).mpr
        (nodupNZ_triple
          (by simpa using hB 1 4 (by omega) (by omega))
          (by simpa using hB 1 7 (by omega) (by omega))
          (by simpa using hB 4 7 (by omega) (by omega))))
    · exact (@nodupNZ_zeros_append ([b3, b6, b9] ++ [0, 0, 0]) [0, 0, 0] (by decide)).mpr ((@nodupNZ_append_zeros [b3, b6, b9] [0, 0, 0] (by decide)).mpr
        (nodupNZ_triple
          (by simpa using hB 2 5 (by omega) (by omega))
          (by simpa using hB 2 8 (by omega) (by omega))
          (by simpa using hB 5 8 (by omega) (by omega))))
    · exact (@nodupNZ_zeros_append ([c1, c4, c7]) [0, 0, 0, 0, 0, 0] (by decide)).mpr (nodupNZ_triple
        (by simpa using hC 0 3 (by omega) (by omega))
        (by simpa using hC 0 6 (by omega) (by omega))
        (by simpa using hC 3 6 (by omega) (by omega)))
    · exact (@nodupNZ_zeros_append ([c2, c5, c8]) [0, 0, 0, 0, 0, 0] (by decide)).mpr (nodupNZ_triple
        (by simpa using hC 1 4 (by omega) (by omega))
        (by simpa using hC 1 7 (by omega) (by omega))
        (by simpa using hC 4 7 (by omega) (by omega)))
    · exact (@nodupNZ_zeros_append ([c3, c6, c9]) [0, 0, 0, 0, 0, 0] (by decide)).mpr (nodupNZ_triple
        (by simpa using hC 2 5 (by omega) (by omega))
        (by simpa using hC 2 8 (by omega) (by omega))
        (by simpa using hC 5 8 (by omega) (by omega)))
  · intro r hr c hc
    interval_cases r <;> interval_cases c <;>
      first
        | exact nodupNZ_of_nodup hA9
        | exact nodupNZ_of_nodup hB9
        | exact nodupNZ_of_nodup hC9
        | exact hz9

theorem count_digit_of_house {l : List Nat} (hlen : l.length = 9)
    (hmem : ∀ x ∈ l, 1 ≤ x ∧ x ≤ 9) (hnd : nodupNZ l) {d : Nat} (hd1 : 1 ≤ d)
    (hd9 : d ≤ 9) : l.count d = 1 := by
  have hfil : l.filter (fun v => v ≠ 0) = l := by
    apply List.filter_eq_self.mpr
    intro a ha
    have := hmem a ha
    simp
    omega
  have hnd' : l.Nodup := by
    unfold nodupNZ at hnd
    rw [hfil] at hnd
    exact hnd
  have hsub : l ⊆ [1, 2, 3, 4, 5, 6, 7, 8, 9] := by
    intro x hx
    have := hmem x hx
    simp
    omega
  have hperm : l.Perm [1, 2, 3, 4, 5, 6, 7, 8, 9] :=
    (List.subperm_of_subset hnd' hsub).perm_of_length_le (by simp [hlen])
  rw [hperm.count_eq]
  interval_cases d <;> decide

theorem mem_rowCells_bounds {g : Grid} (hw : wfG g) (hf : fullG g) {r : Nat}
    (hr : r < 9) : ∀ x ∈ rowCells g r, 1 ≤ x ∧ x ≤ 9 := by
  intro x hx
  obtain ⟨j, hj, hjx⟩ := List.mem_iff_getElem.mp hx
  rw [length_rowCells hw hr] at hj
  have hx9 : (rowCells g r).getD j 0 = x := by
    rw [getD_eq_getElem (by rw [length_rowCells hw hr]; omega) 0, List.get_eq_getElem]
    exact hjx
  rw [rowCells_getD] at hx9
  have h1 := hf r hr j hj
  have h9 := getCell_le_9 hw r j
  rw [hx9] at h1 h9
  omega

theorem mem_colCells_bounds {g : Grid} (hw : wfG g) (hf : fullG g) {c : Nat}
    (hc : c < 9) : ∀ x ∈ colCells g c, 1 ≤ x ∧ x ≤ 9 := by
  intro x hx
  obtain ⟨j, hj, hjx⟩ := List.mem_iff_getElem.mp hx
  rw [length_colCells hw c] at hj
  have hx9 : (colCells g c).getD j 0 = x := by
    rw [getD_eq_getElem (by rw [length_colCells hw c]; omega) 0, List.get_eq_getElem]
    exact hjx
  rw [colCells_getD] at hx9
  have h1 := hf j hj c hc
  have h9 := getCell_le_9 hw j c
  rw [hx9] at h1 h9
  omega

theorem mem_boxCells_bounds {g : Grid} (hw : wfG g) (hf : fullG g) {r c : Nat}
    (hr : r < 9) (hc : c < 9) : ∀ x ∈ boxCells g r c, 1 ≤ x ∧ x ≤ 9 := by
  intro x hx
  obtain ⟨j, hj, hjx⟩ := List.mem_iff_getElem.mp hx
  rw [length_boxCells] at hj
  have hx9 : (boxCells g r c).getD j 0 = x := by
    rw [getD_eq_getElem (by rw [length_boxCells]; omega) 0, List.get_eq_getElem]
    exact hjx
  rw [boxCells_getD _ _ _ hj] at hx9
  have h1 := hf (3 * (r / 3) + j / 3) (by omega) (3 * (c / 3) + j % 3) (by omega)
  have h9 := getCell_le_9 hw (3 * (r / 3) + j / 3) (3 * (c / 3) + j % 3)
  rw [hx9] at h1 h9
  omega

/-- C4: every grid returned by `generate_random_filled_grid` — for any three
seeded box permutations of 1–9, any stream of shuffled digit lists and any
fuel — has no zero entries, and every row, every column and every box
contains each digit 1–9 exactly once. -/
theorem spec_C4_generated_grid_valid {p0 p3 p6 : List Nat}
    (h0 : p0.Perm [1, 2, 3, 4, 5, 6, 7, 8, 9])
    (h3 : p3.Perm [1, 2, 3, 4, 5, 6, 7, 8, 9])
    (h6 : p6.Perm [1, 2, 3, 4, 5, 6, 7, 8, 9])
    {ds : Nat → List Nat} (hds : ∀ k, (ds k).Perm [1, 2, 3, 4, 5, 6, 7, 8, 9])
    {fuel : Nat} {g : Grid}
    (h : generate_random_filled_gridF p0 p3 p6 ds fuel = some g) :
    fullG g ∧ (∀ r < 9, ∀ d, 1 ≤ d → d ≤ 9 → (rowCells g r).count d = 1) ∧
      (∀ c < 9, ∀ d, 1 ≤ d → d ≤ 9 → (colCells g c).count d = 1) ∧
      ∀ r < 9, ∀ c < 9, ∀ d, 1 ≤ d → d ≤ 9 → (boxCells g r c).count d = 1 := by
  obtain ⟨hwseed, hvseed⟩ := seedBoxes_wf_valid h0 h3 h6
  unfold generate_random_filled_gridF at h
  cases hfill : fill_gridF ds fuel 0 (seedBoxes p0 p3 p6) with
  | mk og k2 =>
    rw [hfill] at h
    have hog : og = some g := h
    subst hog
    have hdb : ∀ k, ∀ d ∈ ds k, 1 ≤ d ∧ d ≤ 9 := by
      intro k d hd
      have := (hds k).mem_iff.mp hd
      simp at this
      omega
    obtain ⟨hwg, hfg, -, hvg'⟩ :=
      fill_gridF_sound hdb fuel 0 (seedBoxes p0 p3 p6) g k2 hwseed hfill
    have hvg := hvg' hvseed
    refine ⟨hfg, ?_, ?_, ?_⟩
    · intro r hr d h1 h9
      exact count_digit_of_house (length_rowCells hwg hr)
        (mem_rowCells_bounds hwg hfg hr) (hvg.1 r hr) h1 h9
    · intro c hc d h1 h9
      exact count_digit_of_house (length_colCells hwg c)
        (mem_colCells_bounds hwg hfg hc) (hvg.2.1 c hc) h1 h9
    · intro r hr c hc d h1 h9
      exact count_digit_of_house (length_boxCells g r c)
        (mem_boxCells_bounds hwg hfg hr hc) (hvg.2.2 r hr c hc) h1 h9

/-- Concrete witness inputs for C4: the diagonal boxes of `G0` and an
identity digit order on every call. -/
def p0W : List Nat := [1, 2, 3, 4, 5, 6, 7, 8, 9]

def p3W : List Nat := [5, 6, 7, 8, 9, 1, 2, 3, 4]

def p6W : List Nat := [9, 1, 2, 3, 4, 5, 6, 7, 8]

def dsI : Nat → List Nat := fun _ => [1, 2, 3, 4, 5, 6, 7, 8, 9]

/-- The grid the witness run of the generator produces. -/
def GW : Grid :=
  [[1, 2, 3, 4, 5, 6, 7, 8, 9],
   [4, 5, 6, 7, 8, 9, 1, 2, 3],
   [7, 8, 9, 1, 2, 3, 4, 5, 6],
   [2, 3, 1, 5, 6, 7, 8, 9, 4],
   [5, 6, 4, 8, 9, 1, 2, 3, 7],
   [8, 9, 7, 2, 3, 4, 5, 6, 1],
   [3, 4, 5, 6, 7, 8, 9, 1, 2],
   [6, 7, 8, 9, 1, 2, 3, 4, 5],
   [9, 1, 2, 3, 4, 5, 6, 7, 8]]

set_option maxRecDepth 100000 in
set_option maxHeartbeats 4000000 in
/-- Witness for C4 on a concrete successful generator run. -/
theorem spec_C4_witness :
    (p0W.Perm [1, 2, 3, 4, 5, 6, 7, 8, 9] ∧ p3W.Perm [1, 2, 3, 4, 5, 6, 7, 8, 9] ∧
      p6W.Perm [1, 2, 3, 4, 5, 6, 7, 8, 9] ∧
      generate_random_filled_gridF p0W p3W p6W dsI 60 = some GW) ∧
      (fullG GW ∧ (∀ r < 9, ∀ d, 1 ≤ d → d ≤ 9 → (rowCells GW r).count d = 1) ∧
        (∀ c < 9, ∀ d, 1 ≤ d → d ≤ 9 → (colCells GW c).count d = 1) ∧
        ∀ r < 9, ∀ c < 9, ∀ d, 1 ≤ d → d ≤ 9 → (boxCells GW r c).count d = 1) :=
  ⟨⟨by decide, by decide, by decide, by decide⟩,
    @spec_C4_generated_grid_valid p0W p3W p6W (by decide) (by decide) (by decide)
      dsI (fun _ => List.Perm.refl _) 60 GW (by decide)⟩

set_option maxRecDepth 100000 in
set_option maxHeartbeats 4000000 in
theorem fastCount_ex1 : fastCount ex1 = 1 := by
  unfold fastCount
  rw [← countFast_eq_countWith 82 ex1 (by decide) (by decide)]
  decide

set_option maxRecDepth 100000 in
set_option maxHeartbeats 4000000 in
theorem fastCount_ex2 : fastCount ex2 = 5 := by
  unfold fastCount
  rw [← countFast_eq_countWith 82 ex2 (by decide) (by decide)]
  decide

/-- C6 (amended): on well-formed grids satisfying the validity invariant,
`solution_count` is exactly the number of distinct completions (exact and
uncapped); in particular it returns 1 on the spec's first literal example
grid and 5 on the second. -/
theorem spec_C6_exact_solution_count {g : Grid} (hw : wfG g) (hv : validG g) :
    solution_count g = numSolutions g ∧ solution_count ex1 = 1 ∧
      solution_count ex2 = 5 := by
  refine ⟨solution_count_eq_numSolutions hw hv, ?_, ?_⟩
  · rw [solution_count_eq_fastCount (by decide) (by decide)]
    exact fastCount_ex1
  · rw [solution_count_eq_fastCount (by decide) (by decide)]
    exact fastCount_ex2

/-- Witness for the amended C6, at the first example grid. -/
theorem spec_C6_witness :
    (wfG ex1 ∧ validG ex1) ∧
      (solution_count ex1 = numSolutions ex1 ∧ solution_count ex1 = 1 ∧
        solution_count ex2 = 5) :=
  ⟨⟨by decide, by decide⟩, spec_C6_exact_solution_count (by decide) (by decide)⟩


end Vidoku
